import Mathlib

/-!
# Examples/create-app.js

A shallow embedding of the scaffolding script `Examples/create-app.js` and the
properties of it that the specification states.

The script is a linear recipe of external effects. Every effect is appended to a
trace of `Event`s together with the answer the outside world gave; the outside
world is an `Env` of answer functions, each of which sees the whole history of
the run so far, so nothing is assumed about how the world reacts. JavaScript
built-ins the script relies on (`||`, `String.prototype.trim`, `split`,
`replace` with a global literal pattern, `indexOf`, property access) are
modelled on lists of characters.
-/

set_option autoImplicit false

namespace CreateApp

/-! ## JavaScript values -/

/-- A value produced by `JSON.parse`. A number is carried as the text JavaScript
prints for it; an object is the list of its own properties, each name once. -/
inductive Json where
  | null
  | bool (b : Bool)
  | num (text : String)
  | str (s : String)
  | arr (items : List Json)
  | obj (fields : List (String × Json))
  deriving Repr

/-- A JavaScript value as the script sees it: `undefined`, or a JSON value. -/
inductive JsVal where
  | undefined
  | val (j : Json)
  deriving Repr

/-- The errors a step of the script can throw or hand to a callback. -/
inductive JsError where
  | commandFailed (cmd : String)
  | parseError (text : String)
  | typeError
  | fsError (op : String) (path : String)
  | expectationNotMet (expected : String)
  deriving Repr, DecidableEq

/-- Whether a parsed JSON object has an own property of that name. -/
def hasField (name : String) : List (String × Json) → Bool
  | [] => false
  | (k, _) :: rest => k == name || hasField name rest

mutual
/-- JavaScript `ToString` of a JSON value, as used by template literals; `none`
when the conversion throws a `TypeError`. An object prints as `[object Object]`
through `Object.prototype.toString`, unless it has an own property `toString`:
a parsed value is never callable, so the conversion to a primitive then ends in
a `TypeError`. -/
def Json.toStr : Json → Option String
  | .null => some "null"
  | .bool true => some "true"
  | .bool false => some "false"
  | .num t => some t
  | .str s => some s
  | .arr items => Json.joinItems items
  | .obj fields => if hasField "toString" fields then none else some "[object Object]"
/-- The text of `Array.prototype.join(",")`: the elements are converted from
left to right, and the first conversion that throws ends the join. -/
def Json.joinItems : List Json → Option String
  | [] => some ""
  | [x] => Json.itemStr x
  | x :: y :: rest =>
    match Json.itemStr x with
    | none => none
    | some first =>
      match Json.joinItems (y :: rest) with
      | none => none
      | some others => some (first ++ "," ++ others)
/-- The text of one array element inside `join`: `null` prints as nothing. -/
def Json.itemStr : Json → Option String
  | .null => some ""
  | .bool true => some "true"
  | .bool false => some "false"
  | .num t => some t
  | .str s => some s
  | .arr items => Json.joinItems items
  | .obj fields => if hasField "toString" fields then none else some "[object Object]"
end

/-- JavaScript `ToString` of a value interpolated into a template literal. -/
def JsVal.toStr : JsVal → Except JsError String
  | .undefined => .ok "undefined"
  | .val j =>
    match j.toStr with
    | some text => .ok text
    | none => .error .typeError

/-- The value of the property `name` of a parsed JSON object: the first field of
that name, `undefined` when there is none. -/
def lookupField (name : String) : List (String × Json) → JsVal
  | [] => .undefined
  | (k, v) :: rest => if k = name then .val v else lookupField name rest

/-- The number of UTF-16 code units of a text, which is what `length` and
indexing of a JavaScript string count. -/
def utf16Length : List Char → Nat
  | [] => 0
  | c :: cs => (if c.toNat < 65536 then 1 else 2) + utf16Length cs

/-- The value of `v.key`: property access throws a `TypeError` on `undefined`
and `null`, and gives `undefined` on a value without that property. -/
def getKey : JsVal → Except JsError JsVal
  | .undefined => .error .typeError
  | .val .null => .error .typeError
  | .val (.obj fields) => .ok (lookupField "key" fields)
  | .val _ => .ok .undefined

/-- The value of `v[1]`: the second element of an array, the property `1` of an
object, `undefined` on a number or a boolean, a `TypeError` on `null`. On a
string of at least two code units it is the second code unit, a string; the
script reads only the property `key` of it, which no string has, so the text
after the first character stands for it here. -/
def getIndex1 : Json → Except JsError JsVal
  | .null => .error .typeError
  | .arr items =>
    match items with
    | _ :: second :: _ => .ok (.val second)
    | _ => .ok .undefined
  | .obj fields => .ok (lookupField "1" fields)
  | .str s => if 2 ≤ utf16Length s.data then .ok (.val (.str (String.mk (s.data.drop 1)))) else .ok .undefined
  | _ => .ok .undefined

/-! ## JavaScript string built-ins -/

/-- The characters `String.prototype.trim` strips: white space and line
terminators of ECMAScript. -/
def isJsWhitespace (c : Char) : Bool :=
  let n := c.toNat
  n = 9 || n = 10 || n = 11 || n = 12 || n = 13 || n = 32 || n = 160 || n = 5760 ||
  (8192 ≤ n && n ≤ 8202) || n = 8232 || n = 8233 || n = 8239 || n = 8287 || n = 12288 ||
  n = 65279

/-- The text of `String.prototype.trim`. -/
def jsTrim (s : String) : String :=
  String.mk ((s.data.dropWhile isJsWhitespace).reverse.dropWhile isJsWhitespace).reverse

/-- Whether `text` begins with `pat`. -/
def startsWithChars : List Char → List Char → Bool
  | [], _ => true
  | _ :: _, [] => false
  | p :: ps, c :: cs => p == c && startsWithChars ps cs

/-- The position, in UTF-16 code units, of the first occurrence of `pat` in
`text`, where the text begins at position `n`; `none` when there is none. -/
def findFrom (pat : List Char) : Nat → List Char → Option Nat
  | n, [] => if pat.isEmpty then some n else none
  | n, c :: cs =>
    if startsWithChars pat (c :: cs) then some n
    else findFrom pat (n + (if c.toNat < 65536 then 1 else 2)) cs

/-- The result of `indexOf` as an integer, `-1` for "not found". -/
def indexResult : Option Nat → Int
  | some n => n
  | none => -1

/-- The pieces of `text.split(sep)` for a one-character separator. -/
def splitChars (sep : Char) : List Char → List (List Char)
  | [] => [[]]
  | c :: cs =>
    if c = sep then [] :: splitChars sep cs
    else
      match splitChars sep cs with
      | [] => [[c]]
      | piece :: pieces => (c :: piece) :: pieces

/-- The value of `s.split('@')[1]`: a string, or `undefined` (here `none`). -/
def splitAtSign1 (s : String) : Option String :=
  ((splitChars '@' s.data).get? 1).map String.mk

/-- The text `GetSubstitution` of ECMAScript builds from a replacement string for
one match of a pattern without capture groups: `$$` is a dollar sign, `$&` the
matched text, a dollar sign and a backtick the text before the match, a dollar
sign and an apostrophe the text after it; every other character stands for
itself. -/
def getSubstitution (matched before after : List Char) : List Char → List Char
  | [] => []
  | [c] => [c]
  | c :: d :: rest =>
    if c = '$' then
      if d = '$' then '$' :: getSubstitution matched before after rest
      else if d = '&' then matched ++ getSubstitution matched before after rest
      else if d = Char.ofNat 96 then before ++ getSubstitution matched before after rest
      else if d = Char.ofNat 39 then after ++ getSubstitution matched before after rest
      else c :: getSubstitution matched before after (d :: rest)
    else c :: getSubstitution matched before after (d :: rest)

/-- The scan of `text.replace(/pat/g, repl)` for a literal, non-empty pattern:
`skip` counts the characters of the current match still to be passed over and
`before` is the text already scanned. -/
def replaceScan (pat repl : List Char) : Nat → List Char → List Char → List Char
  | _, _, [] => []
  | skip + 1, before, c :: cs => replaceScan pat repl skip (before ++ [c]) cs
  | 0, before, c :: cs =>
    if startsWithChars pat (c :: cs) then
      getSubstitution pat before ((c :: cs).drop pat.length) repl ++
        replaceScan pat repl (pat.length - 1) (before ++ [c]) cs
    else c :: replaceScan pat repl 0 (before ++ [c]) cs

/-- The text of `data.replace(/pat/g, repl)` for a literal, non-empty pattern. -/
def jsReplaceAll (pat repl data : String) : String :=
  String.mk (replaceScan pat.data repl.data 0 [] data.data)

/-! ## The outside world and the trace of a run -/

/-- One step of the chain handed to the prompt-automation library. -/
inductive NexpectStep where
  | wait (expected : String)
  | sendline (line : JsVal)
  deriving Repr

/-- What a spawned child does: the chunks it writes to its output, and whether
it exits after them (otherwise it stays silent for ever). -/
structure ChildRun where
  output : List String
  exits : Bool
  deriving Repr

/-- Every effect of the script, with the answer of the outside world. An absent
answer (`none`, `false`) is a failure: a non-zero exit, a file-system error. -/
inductive Event where
  | consoleLog (msg : String)
  | consoleError (msg : String)
  | consoleLogValue (e : JsError)
  | consoleErrorValue (e : JsError)
  | execSync (cmd : String) (out : Option String)
  | existsSync (path : String) (res : Bool)
  | statSync (path : String) (isDir : Option Bool)
  | mkdirSync (path : String) (ok : Bool)
  | readdirSync (path : String) (res : Option (List String))
  | linkSync (src dest : String) (ok : Bool)
  | unlinkSync (path : String) (ok : Bool)
  | readFileSync (path : String) (res : Option String)
  | writeFileSync (path data : String) (ok : Bool)
  | readFile (path : String) (res : Option String)
  | writeFile (path data : String) (ok : Bool)
  | chdir (dir : String) (ok : Bool)
  | spawn (cmd : String)
  | childData (chunk : String)
  | sendline (line : JsVal)
  | childExit
  | exit
  deriving Repr

/-- The outside world. Each answer may depend on the whole history of the run,
which is the trace of events so far. -/
structure Env where
  platform : String
  existsSync : List Event → String → Bool
  execSync : List Event → String → Option String
  jsonParse : String → Option Json
  chdir : List Event → String → Bool
  unlinkSync : List Event → String → Bool
  readFileSync : List Event → String → Option String
  writeFileSync : List Event → String → String → Bool
  isDirectory : List Event → String → Option Bool
  mkdirSync : List Event → String → Bool
  readdirSync : List Event → String → Option (List String)
  linkSync : List Event → String → String → Bool
  pathJoin : String → String → String
  readFile : List Event → String → Option String
  writeFile : List Event → String → String → Bool
  spawn : List Event → String → ChildRun

/-- The mutable state of a run: the trace, and the two module-level variables
of lines 40 and 41. -/
structure State where
  trace : List Event
  androidStagingDeploymentKey : JsVal
  iosStagingDeploymentKey : JsVal
  deriving Repr

/-- The state at line 40: nothing has happened, both keys are `null`. -/
def State.init : State := ⟨[], .val .null, .val .null⟩

/-- The state with one more event at the end of the trace. -/
def State.push (s : State) (e : Event) : State := { s with trace := s.trace ++ [e] }

/-- How a piece of the script ends: it completes with a value, an exception
propagates out of it, `process.exit()` was called, it waits for ever on a
silent child, or the recursion bound `fuel` of the model was reached. -/
inductive Res (α : Type) where
  | ok (a : α) (s : State)
  | threw (e : JsError) (s : State)
  | exited (s : State)
  | hung (s : State)
  | outOfFuel (s : State)
  deriving Repr

/-- The state in which a piece of the script ended. -/
def Res.state {α : Type} : Res α → State
  | .ok _ s => s
  | .threw _ s => s
  | .exited s => s
  | .hung s => s
  | .outOfFuel s => s

/-- A piece of the script: a function of the state. -/
def Script (α : Type) : Type := State → Res α

/-- Sequencing: the continuation runs only after a normal completion. -/
def Script.bind {α β : Type} (m : Script α) (f : α → Script β) : Script β :=
  fun s =>
    match m s with
    | .ok a s1 => f a s1
    | .threw e s1 => .threw e s1
    | .exited s1 => .exited s1
    | .hung s1 => .hung s1
    | .outOfFuel s1 => .outOfFuel s1

instance : Monad Script where
  pure a := fun s => .ok a s
  bind := Script.bind

/-- The statement `try { body } catch (e) { handler }`. -/
def tryCatch {α : Type} (body : Script α) (handler : JsError → Script α) : Script α :=
  fun s =>
    match body s with
    | .threw e s1 => handler e s1
    | r => r

/-- Append an event to the trace. -/
def emit (e : Event) : Script Unit := fun s => .ok () (s.push e)

/-- Throw an exception. -/
def throwJs {α : Type} (e : JsError) : Script α := fun s => .threw e s

/-- The call `console.log(msg)`. -/
def consoleLog (msg : String) : Script Unit := emit (.consoleLog msg)

/-- The call `console.error(msg)`. -/
def consoleError (msg : String) : Script Unit := emit (.consoleError msg)

/-- The call `process.exit()`. -/
def processExit {α : Type} : Script α := fun s => .exited (s.push .exit)

/-- The call `execSync(cmd)`: the output of the command, an exception when it
exits non-zero. -/
def execSync (env : Env) (cmd : String) : Script String := fun s =>
  match env.execSync s.trace cmd with
  | some out => .ok out (s.push (.execSync cmd (some out)))
  | none => .threw (.commandFailed cmd) (s.push (.execSync cmd none))

/-- The call `JSON.parse(text)`. -/
def jsonParse (env : Env) (text : String) : Script Json := fun s =>
  match env.jsonParse text with
  | some j => .ok j s
  | none => .threw (.parseError text) s

/-- Lift a pure computation that may throw. -/
def liftExcept {α : Type} : Except JsError α → Script α
  | .ok a => pure a
  | .error e => throwJs e

/-- The call `fs.existsSync(path)`. -/
def existsSync (env : Env) (path : String) : Script Bool := fun s =>
  let r := env.existsSync s.trace path
  .ok r (s.push (.existsSync path r))

/-- The call `process.chdir(dir)`. -/
def chdir (env : Env) (dir : String) : Script Unit := fun s =>
  if env.chdir s.trace dir then .ok () (s.push (.chdir dir true))
  else .threw (.fsError "chdir" dir) (s.push (.chdir dir false))

/-- The call `fs.unlinkSync(path)`. -/
def unlinkSync (env : Env) (path : String) : Script Unit := fun s =>
  if env.unlinkSync s.trace path then .ok () (s.push (.unlinkSync path true))
  else .threw (.fsError "unlink" path) (s.push (.unlinkSync path false))

/-- The call `fs.readFileSync(path)`. -/
def readFileSync (env : Env) (path : String) : Script String := fun s =>
  match env.readFileSync s.trace path with
  | some data => .ok data (s.push (.readFileSync path (some data)))
  | none => .threw (.fsError "open" path) (s.push (.readFileSync path none))

/-- The call `fs.writeFileSync(path, data)`. -/
def writeFileSync (env : Env) (path data : String) : Script Unit := fun s =>
  if env.writeFileSync s.trace path data then .ok () (s.push (.writeFileSync path data true))
  else .threw (.fsError "open" path) (s.push (.writeFileSync path data false))

/-- The calls `fs.statSync(path).isDirectory()`. -/
def statIsDirectory (env : Env) (path : String) : Script Bool := fun s =>
  match env.isDirectory s.trace path with
  | some b => .ok b (s.push (.statSync path (some b)))
  | none => .threw (.fsError "stat" path) (s.push (.statSync path none))

/-- The call `fs.mkdirSync(path)`. -/
def mkdirSync (env : Env) (path : String) : Script Unit := fun s =>
  if env.mkdirSync s.trace path then .ok () (s.push (.mkdirSync path true))
  else .threw (.fsError "mkdir" path) (s.push (.mkdirSync path false))

/-- The call `fs.readdirSync(path)`. -/
def readdirSync (env : Env) (path : String) : Script (List String) := fun s =>
  match env.readdirSync s.trace path with
  | some names => .ok names (s.push (.readdirSync path (some names)))
  | none => .threw (.fsError "scandir" path) (s.push (.readdirSync path none))

/-- The call `fs.linkSync(src, dest)`. -/
def linkSync (env : Env) (src dest : String) : Script Unit := fun s =>
  if env.linkSync s.trace src dest then .ok () (s.push (.linkSync src dest true))
  else .threw (.fsError "link" src) (s.push (.linkSync src dest false))

/-- The call `fs.readFile(path, 'utf8', callback)`: the value is what the
callback receives, `none` for an error. -/
def readFile (env : Env) (path : String) : Script (Option String) := fun s =>
  let r := env.readFile s.trace path
  .ok r (s.push (.readFile path r))

/-- The call `fs.writeFile(path, data, 'utf8', callback)`: the value is `true`
when the callback receives no error. -/
def writeFile (env : Env) (path data : String) : Script Bool := fun s =>
  let r := env.writeFile s.trace path data
  .ok r (s.push (.writeFile path data r))

/-! ## The prompt-automation library -/

/-- Whether `chunk` contains `expected` as a substring. -/
def containsText (expected chunk : String) : Bool :=
  (findFrom expected.data 0 chunk.data).isSome

/-- Modelled from the spec: the module `./nexpect` is not among the sources.
After a prompt has been matched the fixed reply lines that follow it in the
chain are sent, up to the next prompt to wait for. -/
def flushSends : List NexpectStep → Script (List NexpectStep)
  | .sendline line :: rest => fun s => flushSends rest (s.push (.sendline line))
  | steps => pure steps

/-- Modelled from the spec: the module `./nexpect` is not among the sources.
The state machine of section 4.2 over the output of the child: the state is the
rest of the chain, and it moves only when a chunk of output contains the prompt
text waited for as an exact substring; there is no timeout and no retry. -/
def feedChunks : List NexpectStep → List String → Script (List NexpectStep)
  | steps, [] => pure steps
  | steps, chunk :: more => fun s =>
    match steps with
    | .wait expected :: rest =>
      if containsText expected chunk then
        (Script.bind (flushSends rest) (fun r => feedChunks r more)) (s.push (.childData chunk))
      else feedChunks steps more (s.push (.childData chunk))
    | _ => feedChunks steps more (s.push (.childData chunk))

/-- The prompt the chain still waits for, if any. -/
def pendingWait : List NexpectStep → Option String
  | [] => none
  | .wait expected :: _ => some expected
  | .sendline _ :: rest => pendingWait rest

/-- Modelled from the spec: the module `./nexpect` is not among the sources.
The call `nexpect.spawn(cmd)` followed by the chain `steps` and `.run(callback)`:
the value is the error the completion callback receives, `none` when every
prompt was seen. The callback is called when the child exits; a child that
stays silent without exiting leaves the script waiting for ever. -/
def nexpectRun (env : Env) (cmd : String) (steps : List NexpectStep) :
    Script (Option JsError) := fun s =>
  let child := env.spawn s.trace cmd
  match (Script.bind (flushSends steps) (fun r => feedChunks r child.output))
      (s.push (.spawn cmd)) with
  | .ok rest s1 =>
    if child.exits then
      .ok ((pendingWait rest).map JsError.expectationNotMet) (s1.push .childExit)
    else .hung s1
  | .threw e s1 => .threw e s1
  | .exited s1 => .exited s1
  | .hung s1 => .hung s1
  | .outOfFuel s1 => .outOfFuel s1

/-! ## The script -/

/-- The module-level constants of lines 24 to 34. -/
structure Params where
  appName : String
  appNameAndroid : String
  appNameIOS : String
  reactNativeVersion : String
  reactNativeCodePushVersion : String
  deriving Repr, DecidableEq

/-- The expression `arg || dflt` for an argument that is a string or absent:
the default is evaluated only when the argument is absent or empty. -/
def orElse (arg : Option String) (dflt : Script String) : Script String :=
  match arg with
  | some a => if a = "" then dflt else pure a
  | none => dflt

/-- The value of `args[0] || 'CodePushDemoAppTest'` (line 24). -/
def appNameOf (args : List String) : String :=
  match args[0]? with
  | some a => if a = "" then "CodePushDemoAppTest" else a
  | none => "CodePushDemoAppTest"

/-- Lines 23 to 38: the arguments, the check of the target folder, the two
version selectors. -/
def prologue (env : Env) (args : List String) : Script Params := do
  let appName := appNameOf args
  let found ← existsSync env appName
  if found then
    consoleError ("Folder with name \"" ++ appName ++ "\" already exists! Please delete")
    processExit
  else
    let appNameAndroid := appName ++ "-android"
    let appNameIOS := appName ++ "-ios"
    let reactNativeVersion ← orElse args[1]? (do
      let out ← execSync env "npm view react-native version"
      pure (jsTrim ("react-native@" ++ out)))
    let reactNativeCodePushVersion ← orElse args[2]? (do
      let out ← execSync env "npm view react-native-code-push version"
      pure (jsTrim ("react-native-code-push@" ++ out)))
    consoleLog ("App name: " ++ appName)
    consoleLog ("React Native version: " ++ reactNativeVersion)
    consoleLog ("React Native Module for CodePush version: " ++ reactNativeCodePushVersion ++ " \n")
    pure ⟨appName, appNameAndroid, appNameIOS, reactNativeVersion, reactNativeCodePushVersion⟩

/-- The assignment of the `switch` of lines 70 to 77. -/
def storeKey (platform : String) (key : JsVal) : Script Unit := fun s =>
  if platform = "android" then .ok () { s with androidStagingDeploymentKey := key }
  else if platform = "ios" then .ok () { s with iosStagingDeploymentKey := key }
  else .ok () s

/-- The command of line 60 that registers an app. -/
def addAppCommand (name platform : String) : String :=
  "code-push app add " ++ name ++ " " ++ platform ++ " react-native"

/-- The message of line 59. -/
def creatingMessage (name platform : String) : String :=
  "Creating CodePush app \"" ++ name ++ "\" to release updates for " ++ platform ++ "..."

/-- The message of line 61. -/
def createdMessage (name : String) : String := "App \"" ++ name ++ "\" has been created \n"

/-- The message of line 63. -/
def alreadyExistsMessage (name : String) : String := "App \"" ++ name ++ "\" already exists \n"

/-- The `try`/`catch` of lines 58 to 64: the registration of the app, whose
failure is taken for "already exists". -/
def registerApp (env : Env) (name platform : String) : Script Unit :=
  tryCatch (do
      consoleLog (creatingMessage name platform)
      let _ ← execSync env (addAppCommand name platform)
      consoleLog (createdMessage name))
    (fun _ => consoleLog (alreadyExistsMessage name))

/-- The command of line 65 that lists the deployment keys of an app. -/
def listKeysCommand (name : String) : String :=
  "code-push deployment ls " ++ name ++ " -k --format json"

/-- The function `createCodePushApp` (lines 57 to 78). -/
def createCodePushApp (env : Env) (name platform : String) : Script Unit := do
  registerApp env name platform
  let out ← execSync env (listKeysCommand name)
  let deploymentKeys ← jsonParse env out
  let second ← liftExcept (getIndex1 deploymentKeys)
  let stagingDeploymentKey ← liftExcept (getKey second)
  let keyText ← liftExcept stagingDeploymentKey.toStr
  consoleLog ("Deployment key for " ++ platform ++ ": " ++ keyText)
  consoleLog ("Use \"code-push release-react " ++ name ++ " " ++ platform ++ "\" command to release updates for " ++ platform ++ " \n")
  storeKey platform stagingDeploymentKey

/-- The function `generatePlainReactNativeApp` (lines 80 to 84). -/
def generatePlainReactNativeApp (env : Env) (appName reactNativeVersion : String) :
    Script Unit := do
  consoleLog "Installing React Native..."
  let _ ← execSync env ("react-native init " ++ appName ++ " --version " ++ reactNativeVersion)
  consoleLog "React Native has been installed \n"

/-- The function `installCodePush` (lines 86 to 90). -/
def installCodePush (env : Env) (reactNativeCodePushVersion : String) : Script Unit := do
  consoleLog "Installing React Native Module for CodePush..."
  let _ ← execSync env ("npm i --save " ++ reactNativeCodePushVersion)
  consoleLog "React Native Module for CodePush has been installed \n"

/-- Whether an array element is strictly equal (`===`) to the argument of
`indexOf`, which is a string or `undefined` (here `none`). A parsed JSON value
is never `undefined`. -/
def strictEqualsArg : Option String → Json → Bool
  | some v, .str s => s == v
  | _, _ => false

/-- The position of the first element of `items` at or after position `n` that
is strictly equal to `arg`. -/
def findElemFrom (arg : Option String) : Nat → List Json → Option Nat
  | _, [] => none
  | n, x :: xs => if strictEqualsArg arg x then some n else findElemFrom arg (n + 1) xs

/-- The call `receiver.indexOf(arg)` on a parsed JSON value: `Array.prototype.indexOf`
on an array, `String.prototype.indexOf` (a substring search for the text of the
argument) on a string, and a `TypeError` on every other value, which has no
callable `indexOf`. -/
def jsIndexOf (receiver : Json) (arg : Option String) : Except JsError Int :=
  match receiver with
  | .arr items => .ok (indexResult (findElemFrom arg 0 items))
  | .str s => .ok (indexResult (findFrom (arg.getD "undefined").data 0 s.data))
  | _ => .error .typeError

/-- The registry query of line 143. -/
def versionsQuery : String := "npm view react-native versions --json"

/-- Lines 141 to 149 of `optimizeToTestInDebugMode`: the value of the variable
`rnXcodeShLocationFolder` after the `try`/`catch`. -/
def rnXcodeShLocationFolder (env : Env) (reactNativeVersion : String) : Script String :=
  tryCatch (do
      let out ← execSync env versionsQuery
      let rnVersions ← jsonParse env out
      let currentRNversion := splitAtSign1 reactNativeVersion
      let i ← liftExcept (jsIndexOf rnVersions currentRNversion)
      if i > -1 then
        let i2 ← liftExcept (jsIndexOf rnVersions currentRNversion)
        let j ← liftExcept (jsIndexOf rnVersions (some "0.46.0-rc.0"))
        if i2 < j then pure "packager" else pure "scripts"
      else pure "scripts")
    (fun _ => pure "scripts")

/-- The perl command of line 151. -/
def perlCommand (appName : String) : String :=
  "perl -i -p0e 's/#ifdef DEBUG.*?#endif/jsCodeLocation = [CodePush bundleURL];/s' ios/" ++
    appName ++ "/AppDelegate.m"

/-- The sed command of line 152. -/
def sedXcodeShCommand (folder : String) : String :=
  "sed -ie '17,20d' node_modules/react-native/" ++ folder ++ "/react-native-xcode.sh"

/-- The sed command of line 153. -/
def sedGradleCommand : String :=
  "sed -ie 's/targetName.toLowerCase().contains(\"release\")$/true/' node_modules/react-native/react.gradle"

/-- The function `optimizeToTestInDebugMode` (lines 140 to 154). -/
def optimizeToTestInDebugMode (env : Env) (appName reactNativeVersion : String) :
    Script Unit := do
  let folder ← rnXcodeShLocationFolder env reactNativeVersion
  let _ ← execSync env (perlCommand appName)
  let _ ← execSync env (sedXcodeShCommand folder)
  let _ ← execSync env sedGradleCommand
  pure ()

/-- The command of line 157. -/
def chownCommand (folderPath : String) : String := "chown -R `whoami` " ++ folderPath

/-- The command of line 158. -/
def chmodCommand (folderPath : String) : String := "chmod -R 755 " ++ folderPath

/-- The function `grantAccess` (lines 156 to 159). -/
def grantAccess (env : Env) (folderPath : String) : Script Unit := do
  let _ ← execSync env (chownCommand folderPath)
  let _ ← execSync env (chmodCommand folderPath)
  pure ()

/-- Run a callback on every element of a list, as `forEach` does. -/
def forEachScript {α : Type} (f : α → Script Unit) : List α → Script Unit
  | [] => pure ()
  | x :: xs => Script.bind (f x) (fun _ => forEachScript f xs)

/-- The function `copyRecursiveSync` (lines 161 to 174). The recursion follows
the directory tree the world shows; `fuel` bounds its depth. -/
def copyRecursiveSync (env : Env) : Nat → String → String → Script Unit
  | 0, _, _ => fun s => .outOfFuel s
  | fuel + 1, src, dest => do
    let found ← existsSync env src
    let isDirectory ← (if found then statIsDirectory env src else pure false)
    if found && isDirectory then
      mkdirSync env dest
      let children ← readdirSync env src
      forEachScript (fun childItemName =>
        copyRecursiveSync env fuel (env.pathJoin src childItemName)
          (env.pathJoin dest childItemName)) children
    else linkSync env src dest

/-- The test `/^win/.test(process.platform)`. -/
def isWindows (platform : String) : Bool := startsWithChars "win".data platform.data

/-- The message of line 134. -/
def doneMessage (appName : String) : String :=
  "\nReact Native app \"" ++ appName ++ "\" has been generated and CodePushified!"

/-- The callback of `fs.writeFile` (lines 126 to 136); `written` is `true` when
it receives no error. -/
def writeFileCallback (env : Env) (appName reactNativeVersion : String) (written : Bool) :
    Script Unit :=
  if written then do
    (if isWindows env.platform then pure ()
     else do
      optimizeToTestInDebugMode env appName reactNativeVersion
      chdir env "../"
      grantAccess env appName)
    consoleLog (doneMessage appName)
    processExit
  else emit (.consoleErrorValue (.fsError "writeFile" "demo.js"))

/-- The callback of `fs.readFile` (lines 120 to 137); `read` is the text of the
file, `none` when the callback receives an error. -/
def readFileCallback (env : Env) (appName reactNativeVersion : String) (read : Option String) :
    Script Unit :=
  match read with
  | none => emit (.consoleErrorValue (.fsError "readFile" "demo.js"))
  | some data => do
    let result := jsReplaceAll "CodePushDemoApp" appName data
    let written ← writeFile env "demo.js" result
    writeFileCallback env appName reactNativeVersion written

/-- The file operations of `setupAssets` before the substitution (lines 111 to
118). -/
def copyAssets (env : Env) (fuel : Nat) : Script Unit := do
  unlinkSync env "./index.ios.js"
  unlinkSync env "./index.android.js"
  let demo ← readFileSync env "../CodePushDemoApp/demo.js"
  writeFileSync env "demo.js" demo
  let indexIos ← readFileSync env "../CodePushDemoApp/index.ios.js"
  writeFileSync env "index.ios.js" indexIos
  let indexAndroid ← readFileSync env "../CodePushDemoApp/index.android.js"
  writeFileSync env "index.android.js" indexAndroid
  copyRecursiveSync env fuel "../CodePushDemoApp/images" "./images"

/-- The function `setupAssets` (lines 110 to 138), with the callbacks of
`fs.readFile` and `fs.writeFile` run in sequence. -/
def setupAssets (env : Env) (appName reactNativeVersion : String) (fuel : Nat) :
    Script Unit := do
  copyAssets env fuel
  let read ← readFile env "demo.js"
  readFileCallback env appName reactNativeVersion read

/-- The prompt of the linking tool for the Android key (line 95). -/
def androidPrompt : String :=
  "What is your CodePush deployment key for Android (hit <ENTER> to ignore)"

/-- The prompt of the linking tool for the iOS key (line 97). -/
def iosPrompt : String :=
  "What is your CodePush deployment key for iOS (hit <ENTER> to ignore)"

/-- The message of line 93. -/
def linkingMessage : String := "Linking React Native Module for CodePush..."

/-- The message of line 101. -/
def linkedMessage : String := "React Native Module for CodePush has been linked \n"

/-- The command the linking step spawns (line 94). -/
def linkCommand : String := "react-native link react-native-code-push"

/-- The chain of line 95 to 98: wait for the Android prompt, reply, wait for
the iOS prompt, reply. -/
def linkChain (androidStagingDeploymentKey iosStagingDeploymentKey : JsVal) :
    List NexpectStep :=
  [.wait androidPrompt, .sendline androidStagingDeploymentKey,
   .wait iosPrompt, .sendline iosStagingDeploymentKey]

/-- The completion callback of the linking step (lines 99 to 107); `err` is the
error it receives, `none` for a falsy `err`. -/
def linkCallback (env : Env) (p : Params) (fuel : Nat) (err : Option JsError) : Script Unit :=
  match err with
  | none => do
    consoleLog linkedMessage
    setupAssets env p.appName p.reactNativeVersion fuel
  | some e => emit (.consoleLogValue e)

/-- The function `linkCodePush` (lines 92 to 108), with the completion callback
run after the child. -/
def linkCodePush (env : Env) (p : Params) (fuel : Nat)
    (androidStagingDeploymentKey iosStagingDeploymentKey : JsVal) : Script Unit := do
  consoleLog linkingMessage
  let err ← nexpectRun env linkCommand
    (linkChain androidStagingDeploymentKey iosStagingDeploymentKey)
  linkCallback env p fuel err

/-- Read the state. -/
def getState : Script State := fun s => .ok s s

/-- Lines 46 to 52, between the markers `GENERATE START` and `GENERATE END`. -/
def generate (env : Env) (p : Params) (fuel : Nat) : Script Unit := do
  createCodePushApp env p.appNameAndroid "android"
  createCodePushApp env p.appNameIOS "ios"
  generatePlainReactNativeApp env p.appName p.reactNativeVersion
  chdir env p.appName
  installCodePush env p.reactNativeCodePushVersion
  let s ← getState
  linkCodePush env p fuel s.androidStagingDeploymentKey s.iosStagingDeploymentKey

/-- The whole script. -/
def main (env : Env) (args : List String) (fuel : Nat) : Script Unit := do
  let p ← prologue env args
  generate env p fuel

/-- A run of the script with arguments `args` in the world `env`. -/
def run (env : Env) (args : List String) (fuel : Nat) : Res Unit :=
  main env args fuel State.init

/-! ## Notions used to state the properties -/

/-- The value of the property `name` of a record, said without the accessor of
the model: the value of the one field of that name, `undefined` when the record
has no field of that name. -/
def FieldValue (fields : List (String × Json)) (name : String) (v : JsVal) : Prop :=
  (∃ pre j post, fields = pre ++ (name, j) :: post ∧
    (∀ kv ∈ pre ++ post, kv.1 ≠ name) ∧ v = .val j) ∨
  ((∀ kv ∈ fields, kv.1 ≠ name) ∧ v = .undefined)

/-- The value of `JSON.parse(reply)[1].key` of lines 65 and 66 as a function of
the reply to the listing command, `none` being a non-zero exit; used to state
what `createCodePushApp` does. -/
def stagingKeyOf (env : Env) (name : String) (reply : Option String) : Except JsError JsVal :=
  match reply with
  | none => .error (.commandFailed (listKeysCommand name))
  | some out =>
    match env.jsonParse out with
    | none => .error (.parseError out)
    | some j =>
      match getIndex1 j with
      | .error e => .error e
      | .ok second => getKey second

/-- Whether an optional argument counts as given: it is present and not empty. -/
def argGiven (arg : Option String) : Prop := ∃ v, arg = some v ∧ v ≠ ""

/-- The version selector as the specification words it, for the argument `arg`
and the package `pkg`, over the events `evs` of the run: the argument verbatim
when it is given, and then without a query of the registry for the version of
the package; otherwise the package name, `@` and the reply of the registry, the
whole trimmed. -/
def SelectorSpec (arg : Option String) (pkg : String) (evs : List Event) (selector : String) :
    Prop :=
  (argGiven arg → arg = some selector ∧
    ∀ reply, Event.execSync ("npm view " ++ pkg ++ " version") reply ∉ evs) ∧
  (¬ argGiven arg → ∃ out, Event.execSync ("npm view " ++ pkg ++ " version") (some out) ∈ evs ∧
    selector = jsTrim (pkg ++ "@" ++ out))

/-- The version part of a selector as the specification words it: the text
between the first `@` and the second one (or the end); `none` when the selector
has no `@`. -/
def versionPart (selector : String) : Option String :=
  match selector.data.dropWhile (fun c => c != '@') with
  | [] => none
  | _ :: rest => some (String.mk (rest.takeWhile (fun c => c != '@')))

/-- The condition the specification gives for the folder `packager`: the reply
of the registry parses to a list that contains the version part of the
selector, at an index strictly less than the index of `0.46.0-rc.0`. -/
def PackagerByList (env : Env) (reply : Option String) (selector : String) : Prop :=
  ∃ out items v i j, reply = some out ∧ env.jsonParse out = some (.arr items) ∧
    versionPart selector = some v ∧
    findElemFrom (some v) 0 items = some i ∧
    findElemFrom (some "0.46.0-rc.0") 0 items = some j ∧ i < j

/-- The second way to the folder `packager`, which the code has and the
specification does not mention: the reply parses to a JSON string in which the
version part (the text `undefined` for a selector without `@`) occurs, its first
occurrence strictly before the first occurrence of `0.46.0-rc.0`. -/
def PackagerByText (env : Env) (reply : Option String) (selector : String) : Prop :=
  ∃ out text i j, reply = some out ∧ env.jsonParse out = some (.str text) ∧
    findFrom ((versionPart selector).getD "undefined").data 0 text.data = some i ∧
    findFrom "0.46.0-rc.0".data 0 text.data = some j ∧ i < j

/-- The reply lines of a chain, in order. -/
def sendsOf : List NexpectStep → List JsVal
  | [] => []
  | .wait _ :: rest => sendsOf rest
  | .sendline line :: rest => line :: sendsOf rest

/-- The reply lines sent to the child during a run, in order. -/
def sentLines : List Event → List JsVal
  | [] => []
  | .sendline line :: rest => line :: sentLines rest
  | _ :: rest => sentLines rest

/-- Whether an event is part of the conversation with the child: a chunk of its
output or a reply line. -/
def Event.isChildTalk : Event → Bool
  | .childData _ => true
  | .sendline _ => true
  | _ => false

/-- Whether an event is a file operation of the asset setup (lines 111 to 120):
a deletion, a copy, a step of the recursive copy, or the read of `demo.js`. -/
def Event.isAssetFileOp : Event → Bool
  | .unlinkSync _ _ => true
  | .readFileSync _ _ => true
  | .writeFileSync _ _ _ => true
  | .existsSync _ _ => true
  | .statSync _ _ => true
  | .mkdirSync _ _ => true
  | .readdirSync _ _ => true
  | .linkSync _ _ _ => true
  | .readFile _ _ => true
  | _ => false

/-- The commands run with `execSync` during a run, in order. -/
def commandsOf : List Event → List String
  | [] => []
  | .execSync cmd _ :: rest => cmd :: commandsOf rest
  | _ :: rest => commandsOf rest

/-- What the specification says of the events `post` that follow the successful
write of `demo.js`. On Windows there is only the final message and the exit.
Elsewhere the commands are run in the order registry query, perl edit, sed edit
of `react-native-xcode.sh`, sed edit of `react.gradle`, chown, chmod: the
commands run are a beginning of that list which reaches at least the perl
edit, the whole list when no command other than the registry query fails and
the change of directory succeeds; and no file operation of the asset setup
follows. -/
def AfterWriteSpec (env : Env) (appName : String) (post : List Event) : Prop :=
  (isWindows env.platform = true → post = [.consoleLog (doneMessage appName), .exit]) ∧
  (isWindows env.platform = false →
    (∀ ev ∈ post, ev.isAssetFileOp = false) ∧
    ∃ folder, (folder = "packager" ∨ folder = "scripts") ∧
      commandsOf post <+: [versionsQuery, perlCommand appName, sedXcodeShCommand folder,
        sedGradleCommand, chownCommand appName, chmodCommand appName] ∧
      [versionsQuery, perlCommand appName] <+: commandsOf post ∧
      ((∀ cmd, cmd ≠ versionsQuery → Event.execSync cmd none ∉ post) →
        Event.chdir "../" false ∉ post →
        commandsOf post = [versionsQuery, perlCommand appName, sedXcodeShCommand folder,
          sedGradleCommand, chownCommand appName, chmodCommand appName]))
/-- A piece of the script only appends to the trace, and every event it appends
satisfies `P`, however it ends. -/
def Emits {α : Type} (P : Event → Prop) (m : Script α) : Prop :=
  ∀ s, ∃ evs, (m s).state.trace = s.trace ++ evs ∧ ∀ ev ∈ evs, P ev

/-- A command is one of the two app-registration commands of a run for the app
`appName`. -/
def IsRegistration (appName cmd : String) : Prop :=
  cmd = addAppCommand (appName ++ "-android") "android" ∨
  cmd = addAppCommand (appName ++ "-ios") "ios"

/-- What the specification says of failing commands, for a set `exempt` of
commands whose failure is handled: when any other command exits non-zero, it is
the last event of the run, and the run ends with the exception of that
failure. -/
def FailureStops (exempt : String → Prop) (r : Res Unit) : Prop :=
  ∀ pre cmd post, r.state.trace = pre ++ [Event.execSync cmd none] ++ post → ¬ exempt cmd →
    post = [] ∧ ∃ st, r = .threw (.commandFailed cmd) st

/-- Every failed command among the events is exempt. -/
def CleanOf (exempt : String → Prop) (evs : List Event) : Prop :=
  ∀ cmd, Event.execSync cmd none ∈ evs → exempt cmd

/-- A piece of the script only appends to the trace, and either no command
outside `exempt` fails in it, or the first such failure is its last event and
the exception of that failure leaves it. -/
def StopsOnFailure {α : Type} (exempt : String → Prop) (m : Script α) : Prop :=
  ∀ s, ∃ evs, (m s).state.trace = s.trace ++ evs ∧
    (CleanOf exempt evs ∨
      ∃ init cmd st, evs = init ++ [Event.execSync cmd none] ∧ CleanOf exempt init ∧
        m s = .threw (.commandFailed cmd) st)

/-- A piece of the script returns only values that satisfy `Q`. -/
def Returns {α : Type} (Q : α → Prop) (m : Script α) : Prop :=
  ∀ s a s1, m s = .ok a s1 → Q a

/-- Whether an event is an effect of the script itself, that is, not part of
the work of the prompt-automation library (the spawn of the child, its output,
the reply lines, its exit). -/
def Event.isOrdinary : Event → Bool
  | .spawn _ => false
  | .childData _ => false
  | .sendline _ => false
  | .childExit => false
  | _ => true

/-- Whether a chain is empty or begins with a prompt to wait for. -/
def startsWithWait : List NexpectStep → Bool
  | [] => true
  | .wait _ :: _ => true
  | .sendline _ :: _ => false

/-- A piece of the script leaves the two deployment keys as they are when it
completes. -/
def KeepsKeys {α : Type} (m : Script α) : Prop :=
  ∀ s a s1, m s = .ok a s1 →
    s1.androidStagingDeploymentKey = s.androidStagingDeploymentKey ∧
    s1.iosStagingDeploymentKey = s.iosStagingDeploymentKey

/-- The placeholder of line 124, as characters. -/
def placeholder : List Char := "CodePushDemoApp".data

/-- The scan of `replaceScan` with every match replaced by the replacement text
as it stands; an auxiliary to state what the substitution does for a name
without special patterns. -/
def plainScan (pat repl : List Char) : Nat → List Char → List Char
  | _, [] => []
  | skip + 1, _ :: cs => plainScan pat repl skip cs
  | 0, c :: cs =>
    if startsWithChars pat (c :: cs) then repl ++ plainScan pat repl (pat.length - 1) cs
    else c :: plainScan pat repl 0 cs

/-! ## Example worlds -/

/-- A world in which the target folder exists. -/
def envFolderExists : Env where
  platform := "linux"
  existsSync := fun _ _ => true
  execSync := fun _ _ => none
  jsonParse := fun _ => none
  chdir := fun _ _ => false
  unlinkSync := fun _ _ => false
  readFileSync := fun _ _ => none
  writeFileSync := fun _ _ _ => false
  isDirectory := fun _ _ => none
  mkdirSync := fun _ _ => false
  readdirSync := fun _ _ => none
  linkSync := fun _ _ _ => false
  pathJoin := fun a b => a ++ "/" ++ b
  readFile := fun _ _ => none
  writeFile := fun _ _ _ => false
  spawn := fun _ _ => ⟨[], true⟩

/-- The listing of deployment keys the example worlds reply with. -/
def exampleListing : Json :=
  .arr [.obj [("name", .str "Production"), ("key", .str "prod-key")],
        .obj [("name", .str "Staging"), ("key", .str "staging-key")]]

/-- A world in which every command succeeds, the registry knows version
`0.45.0`, the fixture folder holds one image, and the linking tool shows both
prompts. -/
def envHappy : Env where
  platform := "linux"
  existsSync := fun _ p => p == "../CodePushDemoApp/images" || p == "../CodePushDemoApp/images/a.png"
  execSync := fun _ cmd =>
    if cmd == "npm view react-native version" then some "0.45.0\n"
    else if cmd == "npm view react-native-code-push version" then some "5.0.0\n"
    else if cmd == versionsQuery then some "versions"
    else some "listing"
  jsonParse := fun t =>
    if t == "listing" then some exampleListing
    else if t == "versions" then some (.arr [.str "0.45.0", .str "0.46.0-rc.0", .str "0.46.0"])
    else none
  chdir := fun _ _ => true
  unlinkSync := fun _ _ => true
  readFileSync := fun _ _ => some "fixture"
  writeFileSync := fun _ _ _ => true
  isDirectory := fun _ p => some (p == "../CodePushDemoApp/images")
  mkdirSync := fun _ _ => true
  readdirSync := fun _ _ => some ["a.png"]
  linkSync := fun _ _ _ => true
  pathJoin := fun a b => a ++ "/" ++ b
  readFile := fun _ _ => some "import CodePushDemoApp from 'CodePushDemoApp';"
  writeFile := fun _ _ _ => true
  spawn := fun _ _ => ⟨["linking...", androidPrompt, iosPrompt ++ " "], true⟩

/-- The world `envHappy` with the registration of every app failing. -/
def envRegistrationFails : Env :=
  { envHappy with
    execSync := fun h cmd =>
      if startsWithChars "code-push app add ".data cmd.data then none else envHappy.execSync h cmd }

/-- The world `envHappy` with a registry whose list of versions is a single
JSON string. -/
def envTextVersions : Env :=
  { envHappy with
    jsonParse := fun t =>
      if t == "versions" then some (.str "0.45.0 0.46.0-rc.0") else envHappy.jsonParse t }

/-- The world `envHappy` with a linking tool that shows no prompt and exits. -/
def envSilentChild : Env :=
  { envHappy with spawn := fun _ _ => ⟨["error: unknown command"], true⟩ }

/-- The world `envHappy` on Windows. -/
def envWindows : Env := { envHappy with platform := "win32" }

/-- The world `envHappy` with the registry query for the list of versions
failing. -/
def envVersionsQueryFails : Env :=
  { envHappy with
    execSync := fun h cmd => if cmd == versionsQuery then none else envHappy.execSync h cmd }

/-- The world `envHappy` with a listing whose second record has a key that
cannot be printed. -/
def envUnprintableKey : Env :=
  { envHappy with
    jsonParse := fun t =>
      if t == "listing" then
        some (.arr [.obj [], .obj [("key", .obj [("toString", .num "1")])]])
      else envHappy.jsonParse t }

/-! # Theorems -/

/-! ## Basic facts about sequencing -/

@[simp] theorem pure_apply {α : Type} (a : α) (s : State) : (pure a : Script α) s = .ok a s := rfl

@[simp] theorem bind_apply {α β : Type} (m : Script α) (f : α → Script β) (s : State) :
    (m >>= f) s = Script.bind m f s := rfl

theorem bind_ok {α β : Type} {m : Script α} {f : α → Script β} {s s1 : State} {a : α}
    (h : m s = .ok a s1) : Script.bind m f s = f a s1 := by
  simp [Script.bind, h]

/-- C1: when a file or folder of the app name exists, the run is the existence
check, one message on standard error and the exit; no command is run and no
child is spawned. -/
theorem existing_folder_exits (env : Env) (args : List String) (fuel : Nat)
    (h : env.existsSync [] (appNameOf args) = true) :
    run env args fuel =
      .exited ⟨[.existsSync (appNameOf args) true,
        .consoleError ("Folder with name \"" ++ appNameOf args ++ "\" already exists! Please delete"),
        .exit], .val .null, .val .null⟩ ∧
    (∀ cmd out, Event.execSync cmd out ∉ (run env args fuel).state.trace) ∧
    (∀ cmd, Event.spawn cmd ∉ (run env args fuel).state.trace) := by
  have hrun : run env args fuel =
      .exited ⟨[.existsSync (appNameOf args) true,
        .consoleError ("Folder with name \"" ++ appNameOf args ++ "\" already exists! Please delete"),
        .exit], .val .null, .val .null⟩ := by
    simp [run, main, prologue, Script.bind, existsSync, State.init, h, State.push,
      consoleError, emit, processExit]
  refine ⟨hrun, ?_, ?_⟩
  · intro cmd out
    simp [hrun, Res.state]
  · intro cmd
    simp [hrun, Res.state]

theorem existing_folder_exits_witness :
    run envFolderExists ["Demo"] 0 =
      .exited ⟨[.existsSync "Demo" true,
        .consoleError "Folder with name \"Demo\" already exists! Please delete",
        .exit], .val .null, .val .null⟩ :=
  (existing_folder_exits envFolderExists ["Demo"] 0 rfl).1

/-! ## The registration and the extraction of the key -/

theorem registerApp_eq (env : Env) (name platform : String) (s : State) :
    registerApp env name platform s =
      match env.execSync (s.trace ++ [.consoleLog (creatingMessage name platform)])
          (addAppCommand name platform) with
      | some out => .ok () ⟨s.trace ++ [.consoleLog (creatingMessage name platform),
          .execSync (addAppCommand name platform) (some out),
          .consoleLog (createdMessage name)],
          s.androidStagingDeploymentKey, s.iosStagingDeploymentKey⟩
      | none => .ok () ⟨s.trace ++ [.consoleLog (creatingMessage name platform),
          .execSync (addAppCommand name platform) none,
          .consoleLog (alreadyExistsMessage name)],
          s.androidStagingDeploymentKey, s.iosStagingDeploymentKey⟩ := by
  cases h : env.execSync (s.trace ++ [.consoleLog (creatingMessage name platform)])
      (addAppCommand name platform) <;>
    simp [registerApp, tryCatch, Script.bind, consoleLog, emit, execSync, State.push, h]

theorem registerApp_ok (env : Env) (name platform : String) (s : State) :
    ∃ s1, registerApp env name platform s = .ok () s1 ∧
      s1.androidStagingDeploymentKey = s.androidStagingDeploymentKey ∧
      s1.iosStagingDeploymentKey = s.iosStagingDeploymentKey := by
  rw [registerApp_eq]
  cases env.execSync (s.trace ++ [.consoleLog (creatingMessage name platform)])
      (addAppCommand name platform) <;> simp

theorem addAppCommand_ne_listKeysCommand (name platform name2 : String) :
    addAppCommand name platform ≠ listKeysCommand name2 := by
  intro h
  have h2 := congrArg String.data h
  simp [addAppCommand, listKeysCommand, String.data_append] at h2

/-- The part of `createCodePushApp` after the registration, as a function of the
state the registration leaves and of the reply to the listing command: it
throws what lines 65 and 66 throw, or the `TypeError` of the template literal of
line 67, or it logs and stores the key. -/
theorem createCodePushApp_eq (env : Env) (name platform : String) (s s1 : State)
    (reply : Option String)
    (h : registerApp env name platform s = .ok () s1)
    (hr : env.execSync s1.trace (listKeysCommand name) = reply) :
    createCodePushApp env name platform s =
      match stagingKeyOf env name reply with
      | .error e => .threw e (s1.push (.execSync (listKeysCommand name) reply))
      | .ok key =>
        match key.toStr with
        | .error e => .threw e (s1.push (.execSync (listKeysCommand name) reply))
        | .ok keyText =>
          .ok () ⟨s1.trace ++ [.execSync (listKeysCommand name) reply,
              .consoleLog ("Deployment key for " ++ platform ++ ": " ++ keyText),
              .consoleLog ("Use \"code-push release-react " ++ name ++ " " ++ platform ++
                "\" command to release updates for " ++ platform ++ " \n")],
            if platform = "android" then key else s1.androidStagingDeploymentKey,
            if platform = "android" then s1.iosStagingDeploymentKey
            else if platform = "ios" then key else s1.iosStagingDeploymentKey⟩ := by
  simp only [createCodePushApp, bind_apply, bind_ok h]
  have h1 := hr
  cases reply with
  | none => simp [Script.bind, execSync, h1, stagingKeyOf]
  | some out =>
    cases h2 : env.jsonParse out with
    | none => simp [Script.bind, execSync, h1, jsonParse, h2, stagingKeyOf]
    | some j =>
      cases h3 : getIndex1 j with
      | error e =>
        simp [Script.bind, execSync, h1, jsonParse, h2, h3, liftExcept, throwJs, stagingKeyOf]
      | ok second =>
        cases h4 : getKey second with
        | error e =>
          simp [Script.bind, execSync, h1, jsonParse, h2, h3, h4, liftExcept, throwJs,
            stagingKeyOf]
        | ok key =>
          cases h5 : key.toStr with
          | error e =>
            simp [Script.bind, execSync, h1, jsonParse, h2, h3, h4, h5, liftExcept, throwJs,
              stagingKeyOf]
          | ok keyText =>
            by_cases ha : platform = "android"
            · simp [Script.bind, execSync, h1, jsonParse, h2, h3, h4, h5, liftExcept,
                consoleLog, emit, stagingKeyOf, storeKey, State.push, ha]
            · by_cases hi : platform = "ios"
              · simp [Script.bind, execSync, h1, jsonParse, h2, h3, h4, h5, liftExcept,
                  consoleLog, emit, stagingKeyOf, storeKey, State.push, hi]
              · simp [Script.bind, execSync, h1, jsonParse, h2, h3, h4, h5, liftExcept,
                  consoleLog, emit, stagingKeyOf, storeKey, State.push, ha, hi]

theorem getIndex1_error {j : Json} {e : JsError} (h : getIndex1 j = .error e) :
    e = .typeError := by
  cases j with
  | null => simp [getIndex1] at h; exact h.symm
  | bool b => simp [getIndex1] at h
  | num t => simp [getIndex1] at h
  | str t => simp only [getIndex1] at h; split at h <;> simp at h
  | arr items => simp only [getIndex1] at h; split at h <;> simp at h
  | obj fields => simp [getIndex1] at h

theorem getKey_error {v : JsVal} {e : JsError} (h : getKey v = .error e) :
    e = .typeError := by
  unfold getKey at h
  split at h <;> simp at h <;> exact h.symm

theorem toStr_error {v : JsVal} {e : JsError} (h : v.toStr = .error e) :
    e = .typeError := by
  unfold JsVal.toStr at h
  split at h
  · simp at h
  · split at h <;> simp at h
    exact h.symm

theorem stagingKeyOf_error_ne (env : Env) (name platform name2 : String)
    (reply : Option String) (e : JsError) (h : stagingKeyOf env name reply = .error e) :
    e ≠ .commandFailed (addAppCommand name2 platform) := by
  unfold stagingKeyOf at h
  split at h
  · simp only [Except.error.injEq] at h
    subst h
    simp only [ne_eq, JsError.commandFailed.injEq]
    exact fun h2 => addAppCommand_ne_listKeysCommand name2 platform name h2.symm
  · split at h
    · simp only [Except.error.injEq] at h
      subst h
      simp
    · split at h
      · simp only [Except.error.injEq] at h
        subst h
        rename_i h3
        simp [getIndex1_error h3]
      · simp [getKey_error h]

/-- What the accessor of the model returns is the value of the field as
`FieldValue` says it. -/
theorem lookupField_eq_of_fieldValue {fields : List (String × Json)} {name : String}
    {v : JsVal} (h : FieldValue fields name v) : lookupField name fields = v := by
  rcases h with ⟨pre, j, post, hf, hne, hv⟩ | ⟨hne, hv⟩
  · subst hf hv
    induction pre with
    | nil => simp [lookupField]
    | cons kv pre ih =>
      obtain ⟨k, w⟩ := kv
      have hk : ¬ k = name := hne (k, w) (by simp)
      simp only [List.cons_append, lookupField, hk, if_false]
      exact ih fun x hx => hne x (by
        rcases List.mem_append.mp hx with h1 | h1
        · exact List.mem_append.mpr (Or.inl (List.mem_cons_of_mem _ h1))
        · exact List.mem_append.mpr (Or.inr h1))
  · subst hv
    induction fields with
    | nil => rfl
    | cons kv fields ih =>
      obtain ⟨k, w⟩ := kv
      have hk : ¬ k = name := hne (k, w) (by simp)
      simp only [lookupField, hk, if_false]
      exact ih fun x hx => hne x (List.mem_cons_of_mem _ hx)

/-- C2: when the listing parses to a sequence whose first two elements are
records, the key lines 65 and 66 extract is the value of the field `key` of the
second record (`undefined` when it has none), whatever the first record and the
records after the second are. When that value can be printed,
`createCodePushApp` completes, logs it and stores it for the platform `android`
or `ios`; when it cannot (an object with an own property `toString`), the
template literal of line 67 throws a `TypeError` and nothing is stored. -/
theorem extracted_key_is_second_record (env : Env) (name platform : String) (s : State)
    (out : String) (first : Json) (fields : List (String × Json)) (rest : List Json)
    (key : JsVal)
    (hls : env.execSync (registerApp env name platform s).state.trace (listKeysCommand name)
      = some out)
    (hparse : env.jsonParse out = some (.arr (first :: .obj fields :: rest)))
    (hkey : FieldValue fields "key" key) :
    stagingKeyOf env name (some out) = .ok key ∧
    match key.toStr with
    | .ok keyText =>
      ∃ s1, createCodePushApp env name platform s = .ok () s1 ∧
        Event.consoleLog ("Deployment key for " ++ platform ++ ": " ++ keyText) ∈ s1.trace ∧
        (platform = "android" → s1.androidStagingDeploymentKey = key) ∧
        (platform = "ios" → s1.iosStagingDeploymentKey = key)
    | .error _ =>
      ∃ st, createCodePushApp env name platform s = .threw .typeError st ∧
        st.androidStagingDeploymentKey = s.androidStagingDeploymentKey ∧
        st.iosStagingDeploymentKey = s.iosStagingDeploymentKey := by
  obtain ⟨s0, h0, hk1, hk2⟩ := registerApp_ok env name platform s
  rw [h0] at hls
  simp only [Res.state] at hls
  have hstage : stagingKeyOf env name (some out) = .ok key := by
    simp [stagingKeyOf, hparse, getIndex1, getKey, lookupField_eq_of_fieldValue hkey]
  refine ⟨hstage, ?_⟩
  rw [createCodePushApp_eq env name platform s s0 (some out) h0 hls, hstage]
  dsimp only
  cases ht : key.toStr with
  | error e =>
    have he := toStr_error ht
    subst he
    exact ⟨_, rfl, hk1, hk2⟩
  | ok keyText =>
    refine ⟨_, rfl, by simp, ?_, ?_⟩
    · intro ha
      simp [ha]
    · intro hi
      have hne : ¬ platform = "android" := by
        rw [hi]
        decide
      simp [hi, hne]

theorem extracted_key_is_second_record_witness :
    stagingKeyOf envHappy "Demo-android" (some "listing") = .ok (.val (.str "staging-key")) ∧
    ∃ s1, createCodePushApp envHappy "Demo-android" "android" State.init = .ok () s1 ∧
      Event.consoleLog ("Deployment key for " ++ "android" ++ ": " ++ "staging-key")
        ∈ s1.trace ∧
      ("android" = "android" →
        s1.androidStagingDeploymentKey = .val (.str "staging-key")) ∧
      ("android" = "ios" → s1.iosStagingDeploymentKey = .val (.str "staging-key")) :=
  extracted_key_is_second_record envHappy "Demo-android" "android" State.init "listing"
    (.obj [("name", .str "Production"), ("key", .str "prod-key")])
    [("name", .str "Staging"), ("key", .str "staging-key")] [] (.val (.str "staging-key"))
    rfl rfl
    (Or.inl ⟨[("name", .str "Staging")], .str "staging-key", [], rfl, by simp, rfl⟩)

/-- A key that cannot be printed: in the world `envUnprintableKey` the second
record of the listing has the key `{"toString": 1}`; the key is extracted, the
template literal of line 67 throws, and the variable keeps its value `null`. -/
theorem unprintable_key_example :
    stagingKeyOf envUnprintableKey "Demo-android" (some "listing") =
      .ok (.val (.obj [("toString", .num "1")])) ∧
    createCodePushApp envUnprintableKey "Demo-android" "android" State.init =
      .threw .typeError
        ⟨[.consoleLog (creatingMessage "Demo-android" "android"),
          .execSync (addAppCommand "Demo-android" "android") (some "listing"),
          .consoleLog (createdMessage "Demo-android"),
          .execSync (listKeysCommand "Demo-android") (some "listing")],
          .val .null, .val .null⟩ :=
  ⟨rfl, rfl⟩

/-- C3: when the registration command exits non-zero, the failure is swallowed
by `registerApp`, the next effect of `createCodePushApp` is the listing command
for the same app, no exception about the registration command leaves
`createCodePushApp`, and the keys stored are those stored in any world in which
the registration succeeds and the listing gets the same reply. -/
theorem registration_failure_swallowed (env : Env) (name platform : String) (s : State)
    (hfail : env.execSync (s.trace ++ [.consoleLog (creatingMessage name platform)])
      (addAppCommand name platform) = none) :
    registerApp env name platform s =
      .ok () ⟨s.trace ++ [.consoleLog (creatingMessage name platform),
        .execSync (addAppCommand name platform) none,
        .consoleLog (alreadyExistsMessage name)],
        s.androidStagingDeploymentKey, s.iosStagingDeploymentKey⟩ ∧
    (∃ reply evs, (createCodePushApp env name platform s).state.trace =
      s.trace ++ [.consoleLog (creatingMessage name platform),
        .execSync (addAppCommand name platform) none,
        .consoleLog (alreadyExistsMessage name),
        .execSync (listKeysCommand name) reply] ++ evs) ∧
    (∀ st, createCodePushApp env name platform s ≠
      .threw (.commandFailed (addAppCommand name platform)) st) ∧
    (∀ (env2 : Env) (o : String),
      env2.execSync (s.trace ++ [.consoleLog (creatingMessage name platform)])
        (addAppCommand name platform) = some o →
      env2.jsonParse = env.jsonParse →
      env2.execSync (s.trace ++ [.consoleLog (creatingMessage name platform),
          .execSync (addAppCommand name platform) (some o),
          .consoleLog (createdMessage name)]) (listKeysCommand name) =
        env.execSync (s.trace ++ [.consoleLog (creatingMessage name platform),
          .execSync (addAppCommand name platform) none,
          .consoleLog (alreadyExistsMessage name)]) (listKeysCommand name) →
      (createCodePushApp env name platform s).state.androidStagingDeploymentKey =
        (createCodePushApp env2 name platform s).state.androidStagingDeploymentKey ∧
      (createCodePushApp env name platform s).state.iosStagingDeploymentKey =
        (createCodePushApp env2 name platform s).state.iosStagingDeploymentKey) := by
  have hreg := registerApp_eq env name platform s
  simp only [hfail] at hreg
  refine ⟨hreg, ?_, ?_, ?_⟩
  · generalize hr : env.execSync (s.trace ++ [.consoleLog (creatingMessage name platform),
        .execSync (addAppCommand name platform) none,
        .consoleLog (alreadyExistsMessage name)]) (listKeysCommand name) = reply
    rw [createCodePushApp_eq env name platform s _ reply hreg hr]
    refine ⟨reply, ?_⟩
    cases stagingKeyOf env name reply with
    | error e => exact ⟨[], by simp [Res.state, State.push]⟩
    | ok key =>
      dsimp only
      cases key.toStr with
      | error e => exact ⟨[], by simp [Res.state, State.push]⟩
      | ok keyText =>
        exact ⟨[.consoleLog ("Deployment key for " ++ platform ++ ": " ++ keyText),
          .consoleLog ("Use \"code-push release-react " ++ name ++ " " ++ platform ++
            "\" command to release updates for " ++ platform ++ " \n")],
          by simp [Res.state]⟩
  · intro st
    generalize hr : env.execSync (s.trace ++ [.consoleLog (creatingMessage name platform),
        .execSync (addAppCommand name platform) none,
        .consoleLog (alreadyExistsMessage name)]) (listKeysCommand name) = reply
    rw [createCodePushApp_eq env name platform s _ reply hreg hr]
    cases hk : stagingKeyOf env name reply with
    | error e =>
      have hne := stagingKeyOf_error_ne env name platform name reply e hk
      simp only [ne_eq, Res.threw.injEq, not_and]
      intro h
      exact absurd h hne
    | ok key =>
      dsimp only
      cases ht : key.toStr with
      | error e => simp [toStr_error ht]
      | ok keyText => simp
  · intro env2 o hadd hparse hls
    have hreg2 := registerApp_eq env2 name platform s
    simp only [hadd] at hreg2
    generalize hr : env.execSync (s.trace ++ [.consoleLog (creatingMessage name platform),
        .execSync (addAppCommand name platform) none,
        .consoleLog (alreadyExistsMessage name)]) (listKeysCommand name) = reply at hls
    rw [createCodePushApp_eq env name platform s _ reply hreg hr,
      createCodePushApp_eq env2 name platform s _ reply hreg2 hls]
    have hsame : stagingKeyOf env2 name reply = stagingKeyOf env name reply := by
      simp [stagingKeyOf, hparse]
    rw [hsame]
    cases stagingKeyOf env name reply with
    | error e => simp [Res.state, State.push]
    | ok key =>
      dsimp only
      cases key.toStr with
      | error e => simp [Res.state, State.push]
      | ok keyText => simp [Res.state]

theorem registration_failure_swallowed_witness :
    registerApp envRegistrationFails "Demo-android" "android" State.init =
      .ok () ⟨[.consoleLog (creatingMessage "Demo-android" "android"),
        .execSync (addAppCommand "Demo-android" "android") none,
        .consoleLog (alreadyExistsMessage "Demo-android")], .val .null, .val .null⟩ :=
  (registration_failure_swallowed envRegistrationFails "Demo-android" "android" State.init
    (by decide)).1

/-! ## The arguments -/

theorem orElse_given {v : String} (hv : v ≠ "") (dflt : Script String) (s : State) :
    orElse (some v) dflt s = .ok v s := by
  simp [orElse, hv]

theorem orElse_not_given {arg : Option String} (h : ¬ argGiven arg) (dflt : Script String) :
    orElse arg dflt = dflt := by
  cases arg with
  | none => rfl
  | some v =>
    by_cases hv : v = ""
    · simp [orElse, hv]
    · exact absurd ⟨v, rfl, hv⟩ h

theorem appNameOf_given {args : List String} {v : String} (h : args[0]? = some v)
    (hv : v ≠ "") : appNameOf args = v := by
  simp [appNameOf, h, hv]

theorem appNameOf_not_given {args : List String} (h : ¬ argGiven args[0]?) :
    appNameOf args = "CodePushDemoAppTest" := by
  unfold appNameOf
  cases h0 : args[0]? with
  | none => rfl
  | some v =>
    by_cases hv : v = ""
    · simp [hv]
    · exact absurd ⟨v, h0, hv⟩ h

/-- C8: the app name is the first argument when it is given and
`CodePushDemoAppTest` otherwise; when the target folder is absent the prologue
either completes, with each version selector equal to its argument when that is
given (and no registry query for it) and to the trimmed package name, `@` and
registry reply otherwise, or it ends on the failure of a registry query that
was needed because the argument was not given. -/
theorem arguments_and_selectors (env : Env) (args : List String) (s : State)
    (hex : env.existsSync s.trace (appNameOf args) = false) :
    (∀ v, args[0]? = some v → v ≠ "" → appNameOf args = v) ∧
    (¬ argGiven args[0]? → appNameOf args = "CodePushDemoAppTest") ∧
    match prologue env args s with
    | .ok p s1 => ∃ evs, s1.trace = s.trace ++ evs ∧
        p.appName = appNameOf args ∧
        p.appNameAndroid = appNameOf args ++ "-android" ∧
        p.appNameIOS = appNameOf args ++ "-ios" ∧
        SelectorSpec args[1]? "react-native" evs p.reactNativeVersion ∧
        SelectorSpec args[2]? "react-native-code-push" evs p.reactNativeCodePushVersion
    | .threw e s1 =>
        (e = .commandFailed "npm view react-native version" ∧ ¬ argGiven args[1]? ∧
          Event.execSync "npm view react-native version" none ∈ s1.trace) ∨
        (e = .commandFailed "npm view react-native-code-push version" ∧ ¬ argGiven args[2]? ∧
          Event.execSync "npm view react-native-code-push version" none ∈ s1.trace)
    | _ => False := by
  refine ⟨fun v h hv => appNameOf_given h hv, appNameOf_not_given, ?_⟩
  have hq1 : "npm view " ++ "react-native" ++ " version" = "npm view react-native version" := by
    decide
  have hq2 : "npm view " ++ "react-native-code-push" ++ " version" =
      "npm view react-native-code-push version" := by decide
  have hne : "npm view react-native version" ≠ "npm view react-native-code-push version" := by
    decide
  by_cases g1 : argGiven args[1]?
  · obtain ⟨v1, h1, hv1⟩ := g1
    by_cases g2 : argGiven args[2]?
    · obtain ⟨v2, h2, hv2⟩ := g2
      simp [prologue, Script.bind, existsSync, hex, h1, h2, orElse, hv1, hv2, consoleLog, emit,
        State.push, SelectorSpec, argGiven, hq1, hq2]
    · rw [argGiven] at g2
      cases hr2 : env.execSync (s.trace ++ [.existsSync (appNameOf args) false])
          "npm view react-native-code-push version" with
      | none =>
        simp [prologue, Script.bind, existsSync, hex, h1, orElse_given hv1, orElse_not_given g2,
          execSync, hr2, State.push, argGiven, g2]
      | some out =>
        simp [prologue, Script.bind, existsSync, hex, h1, orElse_given hv1, orElse_not_given g2,
          execSync, hr2, consoleLog, emit, State.push, SelectorSpec, argGiven, hq1, hq2, g2, hne,
          hv1]
  · cases hr1 : env.execSync (s.trace ++ [.existsSync (appNameOf args) false])
        "npm view react-native version" with
    | none =>
      simp [prologue, Script.bind, existsSync, hex, orElse_not_given g1, execSync, hr1,
        State.push, g1]
    | some out1 =>
      by_cases g2 : argGiven args[2]?
      · obtain ⟨v2, h2, hv2⟩ := g2
        rw [argGiven] at g1
        simp [prologue, Script.bind, existsSync, hex, orElse_not_given g1, execSync, hr1, h2,
          orElse_given hv2, consoleLog, emit, State.push, SelectorSpec, argGiven, hq1, hq2, g1,
          hne.symm, hv2]
      · cases hr2 : env.execSync (s.trace ++ [.existsSync (appNameOf args) false,
            .execSync "npm view react-native version" (some out1)])
            "npm view react-native-code-push version" with
        | none =>
          simp [prologue, Script.bind, existsSync, hex, orElse_not_given g1, orElse_not_given g2,
            execSync, hr1, hr2, State.push, g2]
        | some out2 =>
          simp [prologue, Script.bind, existsSync, hex, orElse_not_given g1, orElse_not_given g2,
            execSync, hr1, hr2, consoleLog, emit, State.push, SelectorSpec, hq1, hq2, g1, g2]

theorem arguments_and_selectors_witness :
    (∀ v, ["Demo", "", "react-native-code-push@5.1.0"][0]? = some v → v ≠ "" →
      appNameOf ["Demo", "", "react-native-code-push@5.1.0"] = v) ∧
    (¬ argGiven ["Demo", "", "react-native-code-push@5.1.0"][0]? →
      appNameOf ["Demo", "", "react-native-code-push@5.1.0"] = "CodePushDemoAppTest") ∧
    match prologue envHappy ["Demo", "", "react-native-code-push@5.1.0"] State.init with
    | .ok p s1 => ∃ evs, s1.trace = State.init.trace ++ evs ∧
        p.appName = appNameOf ["Demo", "", "react-native-code-push@5.1.0"] ∧
        p.appNameAndroid = appNameOf ["Demo", "", "react-native-code-push@5.1.0"] ++ "-android" ∧
        p.appNameIOS = appNameOf ["Demo", "", "react-native-code-push@5.1.0"] ++ "-ios" ∧
        SelectorSpec ["Demo", "", "react-native-code-push@5.1.0"][1]? "react-native" evs
          p.reactNativeVersion ∧
        SelectorSpec ["Demo", "", "react-native-code-push@5.1.0"][2]? "react-native-code-push" evs
          p.reactNativeCodePushVersion
    | .threw e s1 =>
        (e = .commandFailed "npm view react-native version" ∧
          ¬ argGiven ["Demo", "", "react-native-code-push@5.1.0"][1]? ∧
          Event.execSync "npm view react-native version" none ∈ s1.trace) ∨
        (e = .commandFailed "npm view react-native-code-push version" ∧
          ¬ argGiven ["Demo", "", "react-native-code-push@5.1.0"][2]? ∧
          Event.execSync "npm view react-native-code-push version" none ∈ s1.trace)
    | _ => False :=
  arguments_and_selectors envHappy ["Demo", "", "react-native-code-push@5.1.0"] State.init
    (by decide)

/-- The prologue on the arguments `Demo`, an empty string and a pinned module
version in the world `envHappy`: the framework selector comes from the
registry, trimmed, and the module selector is the argument. -/
theorem prologue_example :
    (prologue envHappy ["Demo", "", "react-native-code-push@5.1.0"] State.init) =
      .ok ⟨"Demo", "Demo-android", "Demo-ios", "react-native@0.45.0",
          "react-native-code-push@5.1.0"⟩
        ⟨[.existsSync "Demo" false, .execSync "npm view react-native version" (some "0.45.0\n"),
          .consoleLog "App name: Demo", .consoleLog "React Native version: react-native@0.45.0",
          .consoleLog "React Native Module for CodePush version: react-native-code-push@5.1.0 \n"],
          .val .null, .val .null⟩ := by
  rfl

/-! ## The folder of `react-native-xcode.sh` -/

theorem splitChars_eq (sep : Char) (cs : List Char) :
    splitChars sep cs = cs.takeWhile (fun c => c != sep) ::
      (match cs.dropWhile (fun c => c != sep) with
       | [] => []
       | _ :: rest => splitChars sep rest) := by
  induction cs with
  | nil => simp [splitChars]
  | cons c cs ih =>
    by_cases hc : c = sep
    · subst hc
      simp [splitChars]
    · have hb : (c != sep) = true := by simp [hc]
      simp only [List.takeWhile_cons, List.dropWhile_cons, hb, if_true]
      simp only [splitChars, hc, if_false]
      rw [ih]

/-- The expression `s.split('@')[1]` is the version part of the selector. -/
theorem splitAtSign1_eq_versionPart (s : String) : splitAtSign1 s = versionPart s := by
  unfold splitAtSign1 versionPart
  rw [splitChars_eq]
  cases h : s.data.dropWhile (fun c => c != '@') with
  | nil => simp
  | cons d rest =>
    simp only [List.get?_cons_succ]
    rw [splitChars_eq]
    simp

theorem findElemFrom_undefined (n : Nat) (items : List Json) :
    findElemFrom none n items = none := by
  induction items generalizing n with
  | nil => rfl
  | cons x xs ih => simp [findElemFrom, strictEqualsArg, ih]

theorem packager_ne_scripts : "packager" ≠ "scripts" := by decide

/-- The value of the variable `rnXcodeShLocationFolder` for every reply of the
registry: the failed query is recorded and swallowed, and the folder is
`packager` on exactly two kinds of reply. -/
theorem rnXcodeShLocationFolder_eq (env : Env) (selector : String) (s : State)
    (reply : Option String) (hr : env.execSync s.trace versionsQuery = reply) :
    ∃ folder, rnXcodeShLocationFolder env selector s =
        .ok folder (s.push (.execSync versionsQuery reply)) ∧
      (folder = "packager" ∨ folder = "scripts") ∧
      (folder = "packager" ↔
        PackagerByList env reply selector ∨ PackagerByText env reply selector) := by
  have hps := packager_ne_scripts
  cases reply with
  | none =>
    refine ⟨"scripts", ?_, Or.inr rfl, ?_⟩
    · simp [rnXcodeShLocationFolder, tryCatch, Script.bind, execSync, hr]
    · simp [PackagerByList, PackagerByText, hps.symm]
  | some out =>
    cases hp : env.jsonParse out with
    | none =>
      refine ⟨"scripts", ?_, Or.inr rfl, ?_⟩
      · simp [rnXcodeShLocationFolder, tryCatch, Script.bind, execSync, hr, jsonParse, hp]
      · simp [PackagerByList, PackagerByText, hps.symm, hp]
    | some j =>
      cases j with
      | null =>
        refine ⟨"scripts", ?_, Or.inr rfl, ?_⟩
        · simp [rnXcodeShLocationFolder, tryCatch, Script.bind, execSync, hr, jsonParse, hp,
            jsIndexOf, liftExcept, throwJs]
        · simp [PackagerByList, PackagerByText, hps.symm, hp]
      | bool b =>
        refine ⟨"scripts", ?_, Or.inr rfl, ?_⟩
        · simp [rnXcodeShLocationFolder, tryCatch, Script.bind, execSync, hr, jsonParse, hp,
            jsIndexOf, liftExcept, throwJs]
        · simp [PackagerByList, PackagerByText, hps.symm, hp]
      | num t =>
        refine ⟨"scripts", ?_, Or.inr rfl, ?_⟩
        · simp [rnXcodeShLocationFolder, tryCatch, Script.bind, execSync, hr, jsonParse, hp,
            jsIndexOf, liftExcept, throwJs]
        · simp [PackagerByList, PackagerByText, hps.symm, hp]
      | obj fields =>
        refine ⟨"scripts", ?_, Or.inr rfl, ?_⟩
        · simp [rnXcodeShLocationFolder, tryCatch, Script.bind, execSync, hr, jsonParse, hp,
            jsIndexOf, liftExcept, throwJs]
        · simp [PackagerByList, PackagerByText, hps.symm, hp]
      | arr items =>
        cases hv : versionPart selector with
        | none =>
          refine ⟨"scripts", ?_, Or.inr rfl, ?_⟩
          · simp [rnXcodeShLocationFolder, tryCatch, Script.bind, execSync, hr, jsonParse, hp,
              jsIndexOf, liftExcept, throwJs, splitAtSign1_eq_versionPart, hv,
              findElemFrom_undefined, indexResult]
          · simp [PackagerByList, PackagerByText, hps.symm, hp, hv]
        | some v =>
          cases hi : findElemFrom (some v) 0 items with
          | none =>
            refine ⟨"scripts", ?_, Or.inr rfl, ?_⟩
            · simp [rnXcodeShLocationFolder, tryCatch, Script.bind, execSync, hr, jsonParse, hp,
                jsIndexOf, liftExcept, throwJs, splitAtSign1_eq_versionPart, hv, hi,
                indexResult]
            · simp [PackagerByList, PackagerByText, hps.symm, hp, hv, hi]
          | some i =>
            cases hj : findElemFrom (some "0.46.0-rc.0") 0 items with
            | none =>
              refine ⟨"scripts", ?_, Or.inr rfl, ?_⟩
              · have hpos : (-1 : Int) < i := by omega
                have : ¬ ((i : Int) < -1) := by omega
                simp [rnXcodeShLocationFolder, tryCatch, Script.bind, execSync, hr, jsonParse,
                  hp, jsIndexOf, liftExcept, throwJs, splitAtSign1_eq_versionPart, hv, hi, hj,
                  indexResult, this, hpos]
              · simp [PackagerByList, PackagerByText, hps.symm, hp, hv, hi, hj]
            | some j =>
              by_cases hlt : i < j
              · refine ⟨"packager", ?_, Or.inl rfl, ?_⟩
                · have hpos : (-1 : Int) < i := by omega
                  have : ((i : Int) < j) := by omega
                  simp [rnXcodeShLocationFolder, tryCatch, Script.bind, execSync, hr, jsonParse,
                    hp, jsIndexOf, liftExcept, throwJs, splitAtSign1_eq_versionPart, hv, hi, hj,
                    indexResult, this, hpos]
                · simp [PackagerByList, PackagerByText, hp, hv, hi, hj, hlt]
              · refine ⟨"scripts", ?_, Or.inr rfl, ?_⟩
                · have hpos : (-1 : Int) < i := by omega
                  have : ¬ ((i : Int) < j) := by omega
                  simp [rnXcodeShLocationFolder, tryCatch, Script.bind, execSync, hr, jsonParse,
                    hp, jsIndexOf, liftExcept, throwJs, splitAtSign1_eq_versionPart, hv, hi, hj,
                    indexResult, this, hpos]
                · simp [PackagerByList, PackagerByText, hps.symm, hp, hv, hi, hj, hlt]
      | str text =>
        cases hi : findFrom ((versionPart selector).getD "undefined").data 0 text.data with
        | none =>
          refine ⟨"scripts", ?_, Or.inr rfl, ?_⟩
          · simp [rnXcodeShLocationFolder, tryCatch, Script.bind, execSync, hr, jsonParse, hp,
              jsIndexOf, liftExcept, throwJs, splitAtSign1_eq_versionPart, hi, indexResult]
          · simp [PackagerByList, PackagerByText, hps.symm, hp, hi]
        | some i =>
          cases hj : findFrom "0.46.0-rc.0".data 0 text.data with
          | none =>
            refine ⟨"scripts", ?_, Or.inr rfl, ?_⟩
            · have hpos : (-1 : Int) < i := by omega
              have : ¬ ((i : Int) < -1) := by omega
              simp [rnXcodeShLocationFolder, tryCatch, Script.bind, execSync, hr, jsonParse,
                hp, jsIndexOf, liftExcept, throwJs, splitAtSign1_eq_versionPart, hi, hj,
                indexResult, this, hpos]
            · simp [PackagerByList, PackagerByText, hps.symm, hp, hi, hj]
          | some j =>
            by_cases hlt : i < j
            · refine ⟨"packager", ?_, Or.inl rfl, ?_⟩
              · have hpos : (-1 : Int) < i := by omega
                have : ((i : Int) < j) := by omega
                simp [rnXcodeShLocationFolder, tryCatch, Script.bind, execSync, hr, jsonParse,
                  hp, jsIndexOf, liftExcept, throwJs, splitAtSign1_eq_versionPart, hi, hj,
                  indexResult, this, hpos]
              · simp [PackagerByList, PackagerByText, hp, hi, hj, hlt]
            · refine ⟨"scripts", ?_, Or.inr rfl, ?_⟩
              · have hpos : (-1 : Int) < i := by omega
                have : ¬ ((i : Int) < j) := by omega
                simp [rnXcodeShLocationFolder, tryCatch, Script.bind, execSync, hr, jsonParse,
                  hp, jsIndexOf, liftExcept, throwJs, splitAtSign1_eq_versionPart, hi, hj,
                  indexResult, this, hpos]
              · simp [PackagerByList, PackagerByText, hps.symm, hp, hi, hj, hlt]

/-- C10, as the specification states it, fails: in the world `envTextVersions`
the reply of the registry parses to a JSON string, not to a list, and the folder
is `packager` all the same. -/
theorem folder_by_list_counterexample :
    rnXcodeShLocationFolder envTextVersions "react-native@0.45.0" State.init =
      .ok "packager" ⟨[.execSync versionsQuery (some "versions")], .val .null, .val .null⟩ ∧
    ¬ PackagerByList envTextVersions (envTextVersions.execSync [] versionsQuery)
      "react-native@0.45.0" := by
  refine ⟨rfl, ?_⟩
  rintro ⟨out, items, v, i, j, h1, h2, -⟩
  have hout : out = "versions" := by
    have h : envTextVersions.execSync [] versionsQuery = some "versions" := rfl
    rw [h] at h1
    exact (Option.some.inj h1).symm
  subst hout
  have h : envTextVersions.jsonParse "versions" = some (.str "0.45.0 0.46.0-rc.0") := rfl
  rw [h] at h2
  simp at h2

/-- C10, amended: whenever the reply of the registry does not parse to a JSON
string, the registry query of `optimizeToTestInDebugMode` is recorded and its
failure swallowed, and the folder is `packager` exactly when the reply parses to
a list holding the version part of the selector at an index strictly less than
the index of `0.46.0-rc.0`, and `scripts` in every other case; when the perl
command succeeds, the next command is the sed edit of `react-native-xcode.sh`
in that folder. -/
theorem xcode_folder_choice (env : Env) (appName selector : String) (s : State)
    (hlist : ∀ out text, env.execSync s.trace versionsQuery = some out →
      env.jsonParse out ≠ some (.str text)) :
    ∃ folder, rnXcodeShLocationFolder env selector s =
        .ok folder (s.push (.execSync versionsQuery (env.execSync s.trace versionsQuery))) ∧
      (folder = "packager" ∨ folder = "scripts") ∧
      (folder = "packager" ↔
        PackagerByList env (env.execSync s.trace versionsQuery) selector) ∧
      (∀ perlOut,
        env.execSync (s.trace ++ [.execSync versionsQuery (env.execSync s.trace versionsQuery)])
          (perlCommand appName) = some perlOut →
        ∃ r evs, (optimizeToTestInDebugMode env appName selector s).state.trace =
          s.trace ++ [.execSync versionsQuery (env.execSync s.trace versionsQuery),
            .execSync (perlCommand appName) (some perlOut),
            .execSync (sedXcodeShCommand folder) r] ++ evs) := by
  obtain ⟨folder, hf, hcases, hiff⟩ := rnXcodeShLocationFolder_eq env selector s _ rfl
  have hnot : ¬ PackagerByText env (env.execSync s.trace versionsQuery) selector := by
    rintro ⟨out, text, i, j, h1, h2, -⟩
    exact hlist out text h1 h2
  refine ⟨folder, hf, hcases, ?_, ?_⟩
  · rw [hiff]
    exact ⟨fun h => h.resolve_right hnot, Or.inl⟩
  intro perlOut hperl
  refine ⟨env.execSync (s.trace ++ [.execSync versionsQuery (env.execSync s.trace versionsQuery),
      .execSync (perlCommand appName) (some perlOut)]) (sedXcodeShCommand folder), ?_⟩
  cases hsed : env.execSync (s.trace ++ [.execSync versionsQuery
      (env.execSync s.trace versionsQuery),
      .execSync (perlCommand appName) (some perlOut)]) (sedXcodeShCommand folder) with
  | none =>
    refine ⟨[], ?_⟩
    simp [optimizeToTestInDebugMode, Script.bind, hf, execSync, State.push, hperl, hsed,
      Res.state]
  | some sedOut =>
    cases hg : env.execSync (s.trace ++ [.execSync versionsQuery
        (env.execSync s.trace versionsQuery),
        .execSync (perlCommand appName) (some perlOut),
        .execSync (sedXcodeShCommand folder) (some sedOut)]) sedGradleCommand with
    | none =>
      refine ⟨[.execSync sedGradleCommand none], ?_⟩
      simp [optimizeToTestInDebugMode, Script.bind, hf, execSync, State.push, hperl, hsed, hg,
        Res.state]
    | some gOut =>
      refine ⟨[.execSync sedGradleCommand (some gOut)], ?_⟩
      simp [optimizeToTestInDebugMode, Script.bind, hf, execSync, State.push, hperl, hsed, hg,
        Res.state]

theorem xcode_folder_choice_witness :
    ∃ folder, rnXcodeShLocationFolder envHappy "react-native@0.45.0" State.init =
        .ok folder (State.init.push (.execSync versionsQuery
          (envHappy.execSync State.init.trace versionsQuery))) ∧
      (folder = "packager" ∨ folder = "scripts") ∧
      (folder = "packager" ↔
        PackagerByList envHappy (envHappy.execSync State.init.trace versionsQuery)
          "react-native@0.45.0") ∧
      (∀ perlOut,
        envHappy.execSync (State.init.trace ++ [.execSync versionsQuery
            (envHappy.execSync State.init.trace versionsQuery)])
          (perlCommand "Demo") = some perlOut →
        ∃ r evs, (optimizeToTestInDebugMode envHappy "Demo" "react-native@0.45.0"
            State.init).state.trace =
          State.init.trace ++ [.execSync versionsQuery
              (envHappy.execSync State.init.trace versionsQuery),
            .execSync (perlCommand "Demo") (some perlOut),
            .execSync (sedXcodeShCommand folder) r] ++ evs) :=
  xcode_folder_choice envHappy "Demo" "react-native@0.45.0" State.init (by
    intro out text h1 h2
    have hout : envHappy.execSync State.init.trace versionsQuery = some "versions" := rfl
    rw [hout] at h1
    have h3 : out = "versions" := (Option.some.inj h1).symm
    subst h3
    have hp : envHappy.jsonParse "versions" =
        some (.arr [.str "0.45.0", .str "0.46.0-rc.0", .str "0.46.0"]) := rfl
    rw [hp] at h2
    simp at h2)

/-- In the world `envHappy` the selector `react-native@0.45.0` sends the sed
command to the folder `packager`, the selector `react-native@0.46.0` to the
folder `scripts`. -/
theorem xcode_folder_examples :
    rnXcodeShLocationFolder envHappy "react-native@0.45.0" State.init =
      .ok "packager" ⟨[.execSync versionsQuery (some "versions")], .val .null, .val .null⟩ ∧
    rnXcodeShLocationFolder envHappy "react-native@0.46.0" State.init =
      .ok "scripts" ⟨[.execSync versionsQuery (some "versions")], .val .null, .val .null⟩ :=
  ⟨rfl, rfl⟩

/-! ## The linking step -/

theorem sentLines_append (xs ys : List Event) :
    sentLines (xs ++ ys) = sentLines xs ++ sentLines ys := by
  induction xs with
  | nil => rfl
  | cons x xs ih => cases x <;> simp [sentLines, ih]

/-- What `flushSends` does: it sends the leading reply lines and returns the
rest of the chain. -/
theorem flushSends_eq (steps : List NexpectStep) (s : State) :
    ∃ rest evs, flushSends steps s =
        .ok rest ⟨s.trace ++ evs, s.androidStagingDeploymentKey, s.iosStagingDeploymentKey⟩ ∧
      rest <:+ steps ∧ sentLines evs ++ sendsOf rest = sendsOf steps ∧
      (∀ ev ∈ evs, ev.isChildTalk = true) := by
  induction steps generalizing s with
  | nil => exact ⟨[], [], by simp [flushSends], List.suffix_refl _, rfl, by simp⟩
  | cons step steps ih =>
    cases step with
    | wait expected =>
      exact ⟨.wait expected :: steps, [], by simp [flushSends], List.suffix_refl _, rfl, by simp⟩
    | sendline line =>
      obtain ⟨rest, evs, h, hsuf, hsend, hall⟩ := ih (s.push (.sendline line))
      refine ⟨rest, .sendline line :: evs, ?_, ?_, ?_, ?_⟩
      · simp only [flushSends, h]
        simp [State.push]
      · exact hsuf.trans (List.suffix_cons _ _)
      · simp [sentLines, sendsOf, hsend]
      · intro ev hev
        rcases List.mem_cons.mp hev with h1 | h1
        · subst h1; rfl
        · exact hall ev h1

/-- What `feedChunks` does: it only talks with the child, the state it returns
is a rest of the chain, and the lines sent so far followed by the lines still to
send are the lines of the chain. -/
theorem feedChunks_eq (chunks : List String) (steps : List NexpectStep) (s : State) :
    ∃ rest evs, feedChunks steps chunks s =
        .ok rest ⟨s.trace ++ evs, s.androidStagingDeploymentKey, s.iosStagingDeploymentKey⟩ ∧
      rest <:+ steps ∧ sentLines evs ++ sendsOf rest = sendsOf steps ∧
      (∀ ev ∈ evs, ev.isChildTalk = true) := by
  induction chunks generalizing steps s with
  | nil => exact ⟨steps, [], by simp [feedChunks], List.suffix_refl _, rfl, by simp⟩
  | cons chunk more ih =>
    have hskip : ∃ rest evs, feedChunks steps more (s.push (.childData chunk)) =
        .ok rest ⟨s.trace ++ evs, s.androidStagingDeploymentKey, s.iosStagingDeploymentKey⟩ ∧
        rest <:+ steps ∧ sentLines evs ++ sendsOf rest = sendsOf steps ∧
        (∀ ev ∈ evs, ev.isChildTalk = true) := by
      obtain ⟨rest, evs, h, hsuf, hsend, hall⟩ := ih steps (s.push (.childData chunk))
      refine ⟨rest, .childData chunk :: evs, ?_, hsuf, ?_, ?_⟩
      · rw [h]; simp [State.push]
      · simpa [sentLines] using hsend
      · intro ev hev
        rcases List.mem_cons.mp hev with h1 | h1
        · subst h1; rfl
        · exact hall ev h1
    cases steps with
    | nil => simpa [feedChunks] using hskip
    | cons step steps1 =>
      cases step with
      | sendline line => simpa [feedChunks] using hskip
      | wait expected =>
        by_cases hc : containsText expected chunk = true
        · obtain ⟨r1, e1, h1, hsuf1, hsend1, hall1⟩ :=
            flushSends_eq steps1 (s.push (.childData chunk))
          obtain ⟨r2, e2, h2, hsuf2, hsend2, hall2⟩ := ih r1
            ⟨(s.push (.childData chunk)).trace ++ e1, s.androidStagingDeploymentKey,
              s.iosStagingDeploymentKey⟩
          refine ⟨r2, .childData chunk :: (e1 ++ e2), ?_, ?_, ?_, ?_⟩
          · simp only [feedChunks, hc, if_true, Script.bind]
            simp only [State.push] at h1
            simp only [State.push, h1]
            simp only [State.push] at h2
            rw [h2]
            simp
          · exact (hsuf2.trans hsuf1).trans (List.suffix_cons _ _)
          · simp only [sentLines, sendsOf, sentLines_append, List.append_assoc]
            rw [hsend2, hsend1]
          · intro ev hev
            rcases List.mem_cons.mp hev with h3 | h3
            · subst h3; rfl
            · rcases List.mem_append.mp h3 with h4 | h4
              · exact hall1 ev h4
              · exact hall2 ev h4
        · simpa [feedChunks, hc] using hskip

/-- What `nexpectRun` does: the spawn, a conversation with the child, and then
either the exit of the child and the call of the callback, with an error for
the prompt still waited for, or the wait for ever. -/
theorem nexpectRun_eq (env : Env) (cmd : String) (steps : List NexpectStep) (s : State) :
    ∃ rest evs, rest <:+ steps ∧ sentLines evs ++ sendsOf rest = sendsOf steps ∧
      (∀ ev ∈ evs, ev.isChildTalk = true) ∧
      nexpectRun env cmd steps s =
        if (env.spawn s.trace cmd).exits then
          .ok ((pendingWait rest).map JsError.expectationNotMet)
            ⟨s.trace ++ [.spawn cmd] ++ evs ++ [.childExit],
              s.androidStagingDeploymentKey, s.iosStagingDeploymentKey⟩
        else .hung ⟨s.trace ++ [.spawn cmd] ++ evs,
          s.androidStagingDeploymentKey, s.iosStagingDeploymentKey⟩ := by
  obtain ⟨r1, e1, h1, hsuf1, hsend1, hall1⟩ := flushSends_eq steps (s.push (.spawn cmd))
  obtain ⟨r2, e2, h2, hsuf2, hsend2, hall2⟩ := feedChunks_eq (env.spawn s.trace cmd).output r1
    ⟨(s.push (.spawn cmd)).trace ++ e1, s.androidStagingDeploymentKey,
      s.iosStagingDeploymentKey⟩
  refine ⟨r2, e1 ++ e2, hsuf2.trans hsuf1, ?_, ?_, ?_⟩
  · rw [sentLines_append, List.append_assoc, hsend2, hsend1]
  · intro ev hev
    rcases List.mem_append.mp hev with h4 | h4
    · exact hall1 ev h4
    · exact hall2 ev h4
  · simp only [State.push] at h1 h2
    simp only [nexpectRun, Script.bind, State.push, h1, h2]
    split <;> simp

theorem pendingWait_linkChain_suffix (kA kI : JsVal) (rest : List NexpectStep)
    (h : rest <:+ linkChain kA kI) (expected : String) (hp : pendingWait rest = some expected) :
    expected = androidPrompt ∨ expected = iosPrompt := by
  obtain ⟨pre, hpre⟩ := h
  unfold linkChain at hpre
  rcases pre with _ | ⟨a, _ | ⟨b, _ | ⟨c, _ | ⟨d, _ | ⟨e, pre⟩⟩⟩⟩⟩
  · simp at hpre; subst hpre; simp [pendingWait] at hp; exact Or.inl hp.symm
  · simp at hpre; obtain ⟨-, rfl⟩ := hpre; simp [pendingWait] at hp; exact Or.inr hp.symm
  · simp at hpre; obtain ⟨-, -, rfl⟩ := hpre; simp [pendingWait] at hp; exact Or.inr hp.symm
  · simp at hpre; obtain ⟨-, -, -, rfl⟩ := hpre; simp [pendingWait] at hp
  · simp at hpre; obtain ⟨-, -, -, -, rfl⟩ := hpre; simp [pendingWait] at hp
  · have := congrArg List.length hpre
    simp at this

/-- C6: when the completion callback of the linking step receives an error, the
run of `linkCodePush` is the message, the spawn, the conversation with the
child, its exit and the print of the error, and nothing else: `setupAssets` is
not entered. The error is the one for the Android or the iOS prompt. -/
theorem link_error_skips_assets (env : Env) (p : Params) (fuel : Nat) (kA kI : JsVal)
    (s s1 : State) (e : JsError)
    (h : nexpectRun env linkCommand (linkChain kA kI)
      (s.push (.consoleLog linkingMessage)) = .ok (some e) s1) :
    linkCodePush env p fuel kA kI s = .ok () (s1.push (.consoleLogValue e)) ∧
    (e = .expectationNotMet androidPrompt ∨ e = .expectationNotMet iosPrompt) ∧
    ∃ talk, (∀ ev ∈ talk, ev.isChildTalk = true) ∧
      (s1.push (.consoleLogValue e)).trace =
        s.trace ++ [.consoleLog linkingMessage,
          .spawn linkCommand] ++ talk ++ [.childExit, .consoleLogValue e] := by
  refine ⟨?_, ?_⟩
  · simp [linkCodePush, Script.bind, consoleLog, emit, h, linkCallback]
  · obtain ⟨rest, evs, hsuf, -, hall, hrun⟩ := nexpectRun_eq env linkCommand (linkChain kA kI)
      (s.push (.consoleLog linkingMessage))
    rw [h] at hrun
    split at hrun
    · simp only [Res.ok.injEq] at hrun
      obtain ⟨herr, hs1⟩ := hrun
      constructor
      · cases hp : pendingWait rest with
        | none => simp [hp] at herr
        | some expected =>
          rw [hp] at herr
          simp only [Option.map_some', Option.some.injEq] at herr
          rcases pendingWait_linkChain_suffix kA kI rest hsuf expected hp with h1 | h1
          · left; rw [herr, h1]
          · right; rw [herr, h1]
      · refine ⟨evs, hall, ?_⟩
        rw [hs1]
        simp [State.push]
    · simp at hrun

theorem link_error_skips_assets_witness :
    linkCodePush envSilentChild ⟨"Demo", "Demo-android", "Demo-ios", "react-native@0.45.0",
        "react-native-code-push@5.0.0"⟩ 0 (.val (.str "a")) (.val (.str "b")) State.init =
      .ok () ⟨[.consoleLog linkingMessage,
        .spawn linkCommand, .childData "error: unknown command", .childExit,
        .consoleLogValue (.expectationNotMet androidPrompt)], .val .null, .val .null⟩ :=
  (link_error_skips_assets envSilentChild ⟨"Demo", "Demo-android", "Demo-ios",
    "react-native@0.45.0", "react-native-code-push@5.0.0"⟩ 0 (.val (.str "a")) (.val (.str "b"))
    State.init _ (.expectationNotMet androidPrompt) rfl).1

/-! ## After the write of `demo.js` -/

theorem perl_ne (appName : String) : perlCommand appName ≠ versionsQuery := by
  intro h
  have h2 := congrArg String.data h
  simp [perlCommand, versionsQuery, String.data_append] at h2

theorem sedXcodeSh_ne (folder : String) : sedXcodeShCommand folder ≠ versionsQuery := by
  intro h
  have h2 := congrArg String.data h
  simp [sedXcodeShCommand, versionsQuery, String.data_append] at h2

theorem sedGradle_ne : sedGradleCommand ≠ versionsQuery := by decide

theorem chown_ne (folderPath : String) : chownCommand folderPath ≠ versionsQuery := by
  intro h
  have h2 := congrArg String.data h
  simp [chownCommand, versionsQuery, String.data_append] at h2

theorem chmod_ne (folderPath : String) : chmodCommand folderPath ≠ versionsQuery := by
  intro h
  have h2 := congrArg String.data h
  simp [chmodCommand, versionsQuery, String.data_append] at h2

/-- What the callback of `fs.writeFile` does after a successful write. -/
theorem writeFileCallback_spec (env : Env) (appName selector : String) (s : State) :
    ∃ post, (writeFileCallback env appName selector true s).state.trace = s.trace ++ post ∧
      AfterWriteSpec env appName post := by
  by_cases hw : isWindows env.platform = true
  · refine ⟨[.consoleLog (doneMessage appName), .exit], ?_, ?_⟩
    · simp [writeFileCallback, hw, Script.bind, consoleLog, emit, processExit, State.push,
        Res.state]
    · simp [AfterWriteSpec, hw]
  · simp only [Bool.not_eq_true] at hw
    obtain ⟨folder, hf, hcases, -⟩ := rnXcodeShLocationFolder_eq env selector s _ rfl
    generalize env.execSync s.trace versionsQuery = r0 at hf
    cases h1 : env.execSync (s.trace ++ [.execSync versionsQuery r0]) (perlCommand appName) with
    | none =>
      refine ⟨[.execSync versionsQuery r0, .execSync (perlCommand appName) none], ?_, ?_⟩
      · simp [writeFileCallback, hw, Script.bind, optimizeToTestInDebugMode, hf, execSync, chdir,
          grantAccess, consoleLog, emit, processExit, State.push, Res.state, h1]
      · refine ⟨fun h => absurd h (by simp [hw]), fun _ => ⟨by simp [Event.isAssetFileOp],
          folder, hcases, by simp [commandsOf], by simp [commandsOf], ?_⟩⟩
        intro hno _
        exact absurd (by simp) (hno _ (perl_ne appName))
    | some o1 =>
      cases h2 : env.execSync (s.trace ++ [.execSync versionsQuery r0,
          .execSync (perlCommand appName) (some o1)]) (sedXcodeShCommand folder) with
      | none =>
        refine ⟨[.execSync versionsQuery r0, .execSync (perlCommand appName) (some o1),
            .execSync (sedXcodeShCommand folder) none], ?_, ?_⟩
        · simp [writeFileCallback, hw, Script.bind, optimizeToTestInDebugMode, hf, execSync, chdir,
            grantAccess, consoleLog, emit, processExit, State.push, Res.state, h1, h2]
        · refine ⟨fun h => absurd h (by simp [hw]), fun _ => ⟨by simp [Event.isAssetFileOp],
            folder, hcases, by simp [commandsOf], by simp [commandsOf], ?_⟩⟩
          intro hno _
          exact absurd (by simp) (hno _ (sedXcodeSh_ne folder))
      | some o2 =>
        cases h3 : env.execSync (s.trace ++ [.execSync versionsQuery r0,
            .execSync (perlCommand appName) (some o1),
            .execSync (sedXcodeShCommand folder) (some o2)]) (sedGradleCommand) with
        | none =>
          refine ⟨[.execSync versionsQuery r0, .execSync (perlCommand appName) (some o1),
              .execSync (sedXcodeShCommand folder) (some o2), .execSync (sedGradleCommand) none],
              ?_, ?_⟩
          · simp [writeFileCallback, hw, Script.bind, optimizeToTestInDebugMode, hf, execSync,
              chdir, grantAccess, consoleLog, emit, processExit, State.push, Res.state, h1, h2, h3]
          · refine ⟨fun h => absurd h (by simp [hw]), fun _ => ⟨by simp [Event.isAssetFileOp],
              folder, hcases, by simp [commandsOf], by simp [commandsOf], ?_⟩⟩
            intro hno _
            exact absurd (by simp) (hno _ (sedGradle_ne))
        | some o3 =>
          cases h4 : env.chdir (s.trace ++ [.execSync versionsQuery r0,
              .execSync (perlCommand appName) (some o1),
              .execSync (sedXcodeShCommand folder) (some o2),
              .execSync (sedGradleCommand) (some o3)]) "../" with
          | false =>
            refine ⟨[.execSync versionsQuery r0, .execSync (perlCommand appName) (some o1),
                .execSync (sedXcodeShCommand folder) (some o2),
                .execSync (sedGradleCommand) (some o3), .chdir "../" false], ?_, ?_⟩
            · simp [writeFileCallback, hw, Script.bind, optimizeToTestInDebugMode, hf, execSync,
                chdir, grantAccess, consoleLog, emit, processExit, State.push, Res.state, h1, h2,
                h3, h4]
            · refine ⟨fun h => absurd h (by simp [hw]), fun _ => ⟨by simp [Event.isAssetFileOp],
                folder, hcases, by simp [commandsOf], by simp [commandsOf], ?_⟩⟩
              intro _ hcd
              exact absurd (by simp) hcd
          | true =>
            cases h5 : env.execSync (s.trace ++ [.execSync versionsQuery r0,
                .execSync (perlCommand appName) (some o1),
                .execSync (sedXcodeShCommand folder) (some o2),
                .execSync (sedGradleCommand) (some o3),
                .chdir "../" true]) (chownCommand appName) with
            | none =>
              refine ⟨[.execSync versionsQuery r0, .execSync (perlCommand appName) (some o1),
                  .execSync (sedXcodeShCommand folder) (some o2),
                  .execSync (sedGradleCommand) (some o3), .chdir "../" true,
                  .execSync (chownCommand appName) none], ?_, ?_⟩
              · simp [writeFileCallback, hw, Script.bind, optimizeToTestInDebugMode, hf, execSync,
                  chdir, grantAccess, consoleLog, emit, processExit, State.push, Res.state, h1, h2,
                  h3, h4, h5]
              · refine ⟨fun h => absurd h (by simp [hw]), fun _ => ⟨by simp [Event.isAssetFileOp],
                  folder, hcases, by simp [commandsOf], by simp [commandsOf], ?_⟩⟩
                intro hno _
                exact absurd (by simp) (hno _ (chown_ne appName))
            | some o5 =>
              cases h6 : env.execSync (s.trace ++ [.execSync versionsQuery r0,
                  .execSync (perlCommand appName) (some o1),
                  .execSync (sedXcodeShCommand folder) (some o2),
                  .execSync (sedGradleCommand) (some o3), .chdir "../" true,
                  .execSync (chownCommand appName) (some o5)]) (chmodCommand appName) with
              | none =>
                refine ⟨[.execSync versionsQuery r0, .execSync (perlCommand appName) (some o1),
                    .execSync (sedXcodeShCommand folder) (some o2),
                    .execSync (sedGradleCommand) (some o3), .chdir "../" true,
                    .execSync (chownCommand appName) (some o5),
                    .execSync (chmodCommand appName) none], ?_, ?_⟩
                · simp [writeFileCallback, hw, Script.bind, optimizeToTestInDebugMode, hf,
                    execSync, chdir, grantAccess, consoleLog, emit, processExit, State.push,
                    Res.state, h1, h2, h3, h4, h5, h6]
                · refine ⟨fun h => absurd h (by simp [hw]), fun _ => ⟨by simp [Event.isAssetFileOp],
                    folder, hcases, by simp [commandsOf], by simp [commandsOf], ?_⟩⟩
                  intro hno _
                  exact absurd (by simp) (hno _ (chmod_ne appName))
              | some o6 =>
                refine ⟨[.execSync versionsQuery r0, .execSync (perlCommand appName) (some o1),
                    .execSync (sedXcodeShCommand folder) (some o2),
                    .execSync (sedGradleCommand) (some o3), .chdir "../" true,
                    .execSync (chownCommand appName) (some o5),
                    .execSync (chmodCommand appName) (some o6), .consoleLog (doneMessage appName),
                    .exit], ?_, ?_⟩
                · simp [writeFileCallback, hw, Script.bind, optimizeToTestInDebugMode, hf,
                    execSync, chdir, grantAccess, consoleLog, emit, processExit, State.push,
                    Res.state, h1, h2, h3, h4, h5, h6]
                · refine ⟨fun h => absurd h (by simp [hw]), fun _ => ⟨by simp [Event.isAssetFileOp],
                    folder, hcases, by simp [commandsOf], by simp [commandsOf], ?_⟩⟩
                  intro _ _
                  simp [commandsOf]

/-! ## Pieces of the script that only append events of one kind -/

theorem emits_pure {α : Type} (P : Event → Prop) (a : α) : Emits P (pure a : Script α) :=
  fun s => ⟨[], by simp [Res.state], by simp⟩

theorem emits_bind {α β : Type} {P : Event → Prop} {m : Script α} {f : α → Script β}
    (hm : Emits P m) (hf : ∀ a, Emits P (f a)) : Emits P (Script.bind m f) := by
  intro s
  obtain ⟨evs, h1, h2⟩ := hm s
  cases hr : m s with
  | ok a s1 =>
    rw [hr] at h1
    simp only [Res.state] at h1
    obtain ⟨evs2, h3, h4⟩ := hf a s1
    refine ⟨evs ++ evs2, ?_, ?_⟩
    · simp only [Script.bind, hr, h3, h1, List.append_assoc]
    · intro ev hev
      rcases List.mem_append.mp hev with h | h
      · exact h2 ev h
      · exact h4 ev h
  | threw e s1 => rw [hr] at h1; exact ⟨evs, by simpa [Script.bind, hr] using h1, h2⟩
  | exited s1 => rw [hr] at h1; exact ⟨evs, by simpa [Script.bind, hr] using h1, h2⟩
  | hung s1 => rw [hr] at h1; exact ⟨evs, by simpa [Script.bind, hr] using h1, h2⟩
  | outOfFuel s1 => rw [hr] at h1; exact ⟨evs, by simpa [Script.bind, hr] using h1, h2⟩

theorem emits_bind' {α β : Type} {P : Event → Prop} {m : Script α} {f : α → Script β}
    (hm : Emits P m) (hf : ∀ a, Emits P (f a)) : Emits P (m >>= f) :=
  emits_bind hm hf

theorem emits_tryCatch {α : Type} {P : Event → Prop} {body : Script α}
    {handler : JsError → Script α} (hb : Emits P body) (hh : ∀ e, Emits P (handler e)) :
    Emits P (tryCatch body handler) := by
  intro s
  obtain ⟨evs, h1, h2⟩ := hb s
  cases hr : body s with
  | threw e s1 =>
    rw [hr] at h1
    simp only [Res.state] at h1
    obtain ⟨evs2, h3, h4⟩ := hh e s1
    refine ⟨evs ++ evs2, ?_, ?_⟩
    · simp only [tryCatch, hr, h3, h1, List.append_assoc]
    · intro ev hev
      rcases List.mem_append.mp hev with h | h
      · exact h2 ev h
      · exact h4 ev h
  | ok a s1 => rw [hr] at h1; exact ⟨evs, by simpa [tryCatch, hr] using h1, h2⟩
  | exited s1 => rw [hr] at h1; exact ⟨evs, by simpa [tryCatch, hr] using h1, h2⟩
  | hung s1 => rw [hr] at h1; exact ⟨evs, by simpa [tryCatch, hr] using h1, h2⟩
  | outOfFuel s1 => rw [hr] at h1; exact ⟨evs, by simpa [tryCatch, hr] using h1, h2⟩

theorem emits_mono {α : Type} {P Q : Event → Prop} {m : Script α} (h : Emits P m)
    (hpq : ∀ ev, P ev → Q ev) : Emits Q m := by
  intro s
  obtain ⟨evs, h1, h2⟩ := h s
  exact ⟨evs, h1, fun ev hev => hpq ev (h2 ev hev)⟩

theorem emits_emit {P : Event → Prop} {e : Event} (h : P e) : Emits P (emit e) :=
  fun s => ⟨[e], by simp [emit, State.push, Res.state], by simpa using h⟩

theorem emits_throwJs {α : Type} (P : Event → Prop) (e : JsError) :
    Emits P (throwJs e : Script α) :=
  fun s => ⟨[], by simp [throwJs, Res.state], by simp⟩

theorem emits_liftExcept {α : Type} (P : Event → Prop) (x : Except JsError α) :
    Emits P (liftExcept x) := by
  cases x with
  | ok a => exact emits_pure P a
  | error e => exact emits_throwJs P e

theorem emits_jsonParse (P : Event → Prop) (env : Env) (text : String) :
    Emits P (jsonParse env text) := by
  intro s
  refine ⟨[], ?_, by simp⟩
  unfold jsonParse
  split <;> simp [Res.state]

theorem emits_getState (P : Event → Prop) : Emits P getState :=
  fun s => ⟨[], by simp [getState, Res.state], by simp⟩

theorem emits_storeKey (P : Event → Prop) (platform : String) (key : JsVal) :
    Emits P (storeKey platform key) := by
  intro s
  refine ⟨[], ?_, by simp⟩
  unfold storeKey
  split
  · simp [Res.state]
  · split <;> simp [Res.state]

theorem emits_processExit {α : Type} {P : Event → Prop} (h : P .exit) :
    Emits P (processExit : Script α) :=
  fun s => ⟨[.exit], by simp [processExit, State.push, Res.state], by simpa using h⟩

theorem emits_execSync {P : Event → Prop} (env : Env) {cmd : String}
    (h : ∀ r, P (.execSync cmd r)) : Emits P (execSync env cmd) := by
  intro s
  refine ⟨[.execSync cmd (env.execSync s.trace cmd)], ?_, by simpa using h _⟩
  unfold execSync
  split <;> simp [Res.state, State.push, *]

theorem emits_existsSync {P : Event → Prop} (env : Env) {path : String}
    (h : ∀ r, P (.existsSync path r)) : Emits P (existsSync env path) :=
  fun s => ⟨[.existsSync path (env.existsSync s.trace path)],
    by simp [existsSync, Res.state, State.push], by simpa using h _⟩

theorem emits_chdir {P : Event → Prop} (env : Env) {dir : String}
    (h : ∀ r, P (.chdir dir r)) : Emits P (chdir env dir) := by
  intro s
  refine ⟨[.chdir dir (env.chdir s.trace dir)], ?_, by simpa using h _⟩
  unfold chdir
  split <;> simp [Res.state, State.push, *]

theorem emits_unlinkSync {P : Event → Prop} (env : Env) {path : String}
    (h : ∀ r, P (.unlinkSync path r)) : Emits P (unlinkSync env path) := by
  intro s
  refine ⟨[.unlinkSync path (env.unlinkSync s.trace path)], ?_, by simpa using h _⟩
  unfold unlinkSync
  split <;> simp [Res.state, State.push, *]

theorem emits_readFileSync {P : Event → Prop} (env : Env) {path : String}
    (h : ∀ r, P (.readFileSync path r)) : Emits P (readFileSync env path) := by
  intro s
  refine ⟨[.readFileSync path (env.readFileSync s.trace path)], ?_, by simpa using h _⟩
  unfold readFileSync
  split <;> simp [Res.state, State.push, *]

theorem emits_writeFileSync {P : Event → Prop} (env : Env) {path data : String}
    (h : ∀ r, P (.writeFileSync path data r)) : Emits P (writeFileSync env path data) := by
  intro s
  refine ⟨[.writeFileSync path data (env.writeFileSync s.trace path data)], ?_,
    by simpa using h _⟩
  unfold writeFileSync
  split <;> simp [Res.state, State.push, *]

theorem emits_statIsDirectory {P : Event → Prop} (env : Env) {path : String}
    (h : ∀ r, P (.statSync path r)) : Emits P (statIsDirectory env path) := by
  intro s
  refine ⟨[.statSync path (env.isDirectory s.trace path)], ?_, by simpa using h _⟩
  unfold statIsDirectory
  split <;> simp [Res.state, State.push, *]

theorem emits_mkdirSync {P : Event → Prop} (env : Env) {path : String}
    (h : ∀ r, P (.mkdirSync path r)) : Emits P (mkdirSync env path) := by
  intro s
  refine ⟨[.mkdirSync path (env.mkdirSync s.trace path)], ?_, by simpa using h _⟩
  unfold mkdirSync
  split <;> simp [Res.state, State.push, *]

theorem emits_readdirSync {P : Event → Prop} (env : Env) {path : String}
    (h : ∀ r, P (.readdirSync path r)) : Emits P (readdirSync env path) := by
  intro s
  refine ⟨[.readdirSync path (env.readdirSync s.trace path)], ?_, by simpa using h _⟩
  unfold readdirSync
  split <;> simp [Res.state, State.push, *]

theorem emits_linkSync {P : Event → Prop} (env : Env) {src dest : String}
    (h : ∀ r, P (.linkSync src dest r)) : Emits P (linkSync env src dest) := by
  intro s
  refine ⟨[.linkSync src dest (env.linkSync s.trace src dest)], ?_, by simpa using h _⟩
  unfold linkSync
  split <;> simp [Res.state, State.push, *]

theorem emits_readFile {P : Event → Prop} (env : Env) {path : String}
    (h : ∀ r, P (.readFile path r)) : Emits P (readFile env path) :=
  fun s => ⟨[.readFile path (env.readFile s.trace path)],
    by simp [readFile, Res.state, State.push], by simpa using h _⟩

theorem emits_writeFile {P : Event → Prop} (env : Env) {path data : String}
    (h : ∀ r, P (.writeFile path data r)) : Emits P (writeFile env path data) :=
  fun s => ⟨[.writeFile path data (env.writeFile s.trace path data)],
    by simp [writeFile, Res.state, State.push], by simpa using h _⟩

theorem emits_forEachScript {α : Type} {P : Event → Prop} {f : α → Script Unit}
    (hf : ∀ a, Emits P (f a)) (xs : List α) : Emits P (forEachScript f xs) := by
  induction xs with
  | nil => exact emits_pure P ()
  | cons x xs ih => exact emits_bind (hf x) (fun _ => ih)

/-- The recursive copy only performs file operations. -/
theorem emits_copyRecursiveSync {P : Event → Prop} (env : Env)
    (hP : ∀ ev, ev.isAssetFileOp = true → P ev) (fuel : Nat) (src dest : String) :
    Emits P (copyRecursiveSync env fuel src dest) := by
  induction fuel generalizing src dest with
  | zero => exact fun s => ⟨[], by simp [copyRecursiveSync, Res.state], by simp⟩
  | succ fuel ih =>
    unfold copyRecursiveSync
    refine emits_bind' (emits_existsSync env fun r => hP _ rfl) fun found => ?_
    refine emits_bind' ?_ fun isDirectory => ?_
    · split
      · exact emits_statIsDirectory env fun r => hP _ rfl
      · exact emits_pure P false
    · split
      · refine emits_bind' (emits_mkdirSync env fun r => hP _ rfl) fun _ => ?_
        refine emits_bind' (emits_readdirSync env fun r => hP _ rfl) fun children => ?_
        exact emits_forEachScript (fun child => ih _ _) children
      · exact emits_linkSync env fun r => hP _ rfl

/-- The file operations of `setupAssets` before the substitution are file
operations only. -/
theorem emits_copyAssets {P : Event → Prop} (env : Env)
    (hP : ∀ ev, ev.isAssetFileOp = true → P ev) (fuel : Nat) :
    Emits P (copyAssets env fuel) := by
  unfold copyAssets
  refine emits_bind' (emits_unlinkSync env fun r => hP _ rfl) fun _ => ?_
  refine emits_bind' (emits_unlinkSync env fun r => hP _ rfl) fun _ => ?_
  refine emits_bind' (emits_readFileSync env fun r => hP _ rfl) fun _ => ?_
  refine emits_bind' (emits_writeFileSync env fun r => hP _ rfl) fun _ => ?_
  refine emits_bind' (emits_readFileSync env fun r => hP _ rfl) fun _ => ?_
  refine emits_bind' (emits_writeFileSync env fun r => hP _ rfl) fun _ => ?_
  refine emits_bind' (emits_readFileSync env fun r => hP _ rfl) fun _ => ?_
  refine emits_bind' (emits_writeFileSync env fun r => hP _ rfl) fun _ => ?_
  exact emits_copyRecursiveSync env hP fuel _ _

theorem writeFile_not_asset {evs : List Event} (h : ∀ ev ∈ evs, ev.isAssetFileOp = true)
    (path data : String) (w : Bool) : Event.writeFile path data w ∉ evs :=
  fun hmem => by simpa [Event.isAssetFileOp] using h _ hmem

/-- C5: in every run of `setupAssets`, when `demo.js` has been written back
successfully, everything before the write is a file operation of the asset
setup, and what follows is as `AfterWriteSpec` says: on Windows the final
message and the exit only; elsewhere the registry query, the perl edit, the two
sed edits, chown and chmod in that order, as far as the commands succeed, and
no file operation of the asset setup any more. -/
theorem patch_commands_order (env : Env) (appName selector : String) (fuel : Nat) (s : State) :
    ∃ evs, (setupAssets env appName selector fuel s).state.trace = s.trace ++ evs ∧
      ((∃ path data, Event.writeFile path data true ∈ evs) →
        ∃ pre data post, evs = pre ++ [.writeFile "demo.js" data true] ++ post ∧
          (∀ ev ∈ pre, ev.isAssetFileOp = true) ∧ AfterWriteSpec env appName post) := by
  obtain ⟨pre, h1, h2⟩ := emits_copyAssets (P := fun ev => ev.isAssetFileOp = true) env
    (fun _ h => h) fuel s
  cases hr : copyAssets env fuel s with
  | ok u s1 =>
    rw [hr] at h1
    obtain ⟨t1, kA, kI⟩ := s1
    simp only [Res.state] at h1
    subst h1
    cases hread : env.readFile (s.trace ++ pre) "demo.js" with
    | none =>
      refine ⟨pre ++ [.readFile "demo.js" none,
        .consoleErrorValue (.fsError "readFile" "demo.js")], ?_, ?_⟩
      · simp [setupAssets, Script.bind, hr, readFile, hread, readFileCallback, emit, State.push,
          Res.state]
      · rintro ⟨path, data, hmem⟩
        rcases List.mem_append.mp hmem with h | h
        · exact absurd h (writeFile_not_asset h2 path data true)
        · simp at h
    | some text =>
      cases hw : env.writeFile (s.trace ++ pre ++ [.readFile "demo.js" (some text)]) "demo.js"
          (jsReplaceAll "CodePushDemoApp" appName text) with
      | false =>
        simp only [List.append_assoc] at hw
        refine ⟨pre ++ [.readFile "demo.js" (some text),
          .writeFile "demo.js" (jsReplaceAll "CodePushDemoApp" appName text) false,
          .consoleErrorValue (.fsError "writeFile" "demo.js")], ?_, ?_⟩
        · simp [setupAssets, Script.bind, hr, readFile, hread, readFileCallback, writeFile, hw,
            writeFileCallback, emit, State.push, Res.state]
        · rintro ⟨path, data, hmem⟩
          rcases List.mem_append.mp hmem with h | h
          · exact absurd h (writeFile_not_asset h2 path data true)
          · simp at h
      | true =>
        obtain ⟨post, hp1, hp2⟩ := writeFileCallback_spec env appName selector
          ⟨s.trace ++ pre ++ [.readFile "demo.js" (some text),
            .writeFile "demo.js" (jsReplaceAll "CodePushDemoApp" appName text) true], kA, kI⟩
        refine ⟨pre ++ [.readFile "demo.js" (some text),
          .writeFile "demo.js" (jsReplaceAll "CodePushDemoApp" appName text) true] ++ post,
          ?_, ?_⟩
        · simp only [setupAssets, bind_apply, Script.bind, hr, readFile, hread,
            readFileCallback, writeFile, hw, State.push]
          simp only [List.append_assoc, List.cons_append, List.nil_append] at hp1 hw ⊢
          simp only [hw, hp1]
        · intro _
          refine ⟨pre ++ [.readFile "demo.js" (some text)],
            jsReplaceAll "CodePushDemoApp" appName text, post, by simp, ?_, hp2⟩
          intro ev hev
          rcases List.mem_append.mp hev with h | h
          · exact h2 ev h
          · simp only [List.mem_singleton] at h
            subst h
            rfl
  | threw e s1 =>
    rw [hr] at h1
    refine ⟨pre, by simpa [setupAssets, Script.bind, hr] using h1, ?_⟩
    rintro ⟨path, data, hmem⟩
    exact absurd hmem (writeFile_not_asset h2 path data true)
  | exited s1 =>
    rw [hr] at h1
    refine ⟨pre, by simpa [setupAssets, Script.bind, hr] using h1, ?_⟩
    rintro ⟨path, data, hmem⟩
    exact absurd hmem (writeFile_not_asset h2 path data true)
  | hung s1 =>
    rw [hr] at h1
    refine ⟨pre, by simpa [setupAssets, Script.bind, hr] using h1, ?_⟩
    rintro ⟨path, data, hmem⟩
    exact absurd hmem (writeFile_not_asset h2 path data true)
  | outOfFuel s1 =>
    rw [hr] at h1
    refine ⟨pre, by simpa [setupAssets, Script.bind, hr] using h1, ?_⟩
    rintro ⟨path, data, hmem⟩
    exact absurd hmem (writeFile_not_asset h2 path data true)

/-- In the world `envHappy` the asset setup runs the six commands in order, the
sed edit in the folder `packager`; on Windows it runs no command. -/
theorem patch_commands_examples :
    commandsOf (setupAssets envHappy "Demo" "react-native@0.45.0" 2 State.init).state.trace =
      [versionsQuery, perlCommand "Demo", sedXcodeShCommand "packager", sedGradleCommand,
        chownCommand "Demo", chmodCommand "Demo"] ∧
    commandsOf (setupAssets envWindows "Demo" "react-native@0.45.0" 2 State.init).state.trace =
      [] ∧
    Event.writeFile "demo.js" "import Demo from 'Demo';" true ∈
      (setupAssets envWindows "Demo" "react-native@0.45.0" 2 State.init).state.trace := by
  refine ⟨by rfl, by rfl, ?_⟩
  have h : (setupAssets envWindows "Demo" "react-native@0.45.0" 2 State.init).state.trace =
      [.unlinkSync "./index.ios.js" true, .unlinkSync "./index.android.js" true,
        .readFileSync "../CodePushDemoApp/demo.js" (some "fixture"),
        .writeFileSync "demo.js" "fixture" true,
        .readFileSync "../CodePushDemoApp/index.ios.js" (some "fixture"),
        .writeFileSync "index.ios.js" "fixture" true,
        .readFileSync "../CodePushDemoApp/index.android.js" (some "fixture"),
        .writeFileSync "index.android.js" "fixture" true,
        .existsSync "../CodePushDemoApp/images" true,
        .statSync "../CodePushDemoApp/images" (some true),
        .mkdirSync "./images" true,
        .readdirSync "../CodePushDemoApp/images" (some ["a.png"]),
        .existsSync "../CodePushDemoApp/images/a.png" true,
        .statSync "../CodePushDemoApp/images/a.png" (some false),
        .linkSync "../CodePushDemoApp/images/a.png" "./images/a.png" true,
        .readFile "demo.js" (some "import CodePushDemoApp from 'CodePushDemoApp';"),
        .writeFile "demo.js" "import Demo from 'Demo';" true,
        .consoleLog (doneMessage "Demo"), .exit] := by
    rfl
  rw [h]
  simp

/-! ## Failing commands -/

theorem cleanOf_append {X : String → Prop} {xs ys : List Event} (hx : CleanOf X xs)
    (hy : CleanOf X ys) : CleanOf X (xs ++ ys) := by
  intro cmd hmem
  rcases List.mem_append.mp hmem with h | h
  · exact hx cmd h
  · exact hy cmd h

theorem sof_bind_val {α β : Type} {X : String → Prop} {Q : α → Prop} {m : Script α}
    {f : α → Script β} (hm : StopsOnFailure X m) (hq : Returns Q m)
    (hf : ∀ a, Q a → StopsOnFailure X (f a)) : StopsOnFailure X (Script.bind m f) := by
  intro s
  obtain ⟨evs, h1, h2⟩ := hm s
  cases hr : m s with
  | ok a s1 =>
    rw [hr] at h1
    simp only [Res.state] at h1
    have hclean : CleanOf X evs := by
      rcases h2 with h | ⟨init, cmd, st, -, -, h⟩
      · exact h
      · rw [hr] at h; cases h
    obtain ⟨evs2, h3, h4⟩ := hf a (hq s a s1 hr) s1
    refine ⟨evs ++ evs2, ?_, ?_⟩
    · simp only [Script.bind, hr, h3, h1, List.append_assoc]
    · rcases h4 with h | ⟨init, cmd, st, h5, h6, h7⟩
      · exact Or.inl (cleanOf_append hclean h)
      · refine Or.inr ⟨evs ++ init, cmd, st, ?_, cleanOf_append hclean h6, ?_⟩
        · rw [h5, List.append_assoc]
        · simp only [Script.bind, hr, h7]
  | threw e s1 =>
    rw [hr] at h1
    refine ⟨evs, by simpa [Script.bind, hr] using h1, ?_⟩
    rcases h2 with h | ⟨init, cmd, st, h5, h6, h7⟩
    · exact Or.inl h
    · rw [hr] at h7
      simp only [Res.threw.injEq] at h7
      exact Or.inr ⟨init, cmd, st, h5, h6, by simp [Script.bind, hr, h7]⟩
  | exited s1 =>
    rw [hr] at h1
    refine ⟨evs, by simpa [Script.bind, hr] using h1, ?_⟩
    rcases h2 with h | ⟨init, cmd, st, h5, h6, h7⟩
    · exact Or.inl h
    · rw [hr] at h7; cases h7
  | hung s1 =>
    rw [hr] at h1
    refine ⟨evs, by simpa [Script.bind, hr] using h1, ?_⟩
    rcases h2 with h | ⟨init, cmd, st, h5, h6, h7⟩
    · exact Or.inl h
    · rw [hr] at h7; cases h7
  | outOfFuel s1 =>
    rw [hr] at h1
    refine ⟨evs, by simpa [Script.bind, hr] using h1, ?_⟩
    rcases h2 with h | ⟨init, cmd, st, h5, h6, h7⟩
    · exact Or.inl h
    · rw [hr] at h7; cases h7

theorem returns_true {α : Type} (m : Script α) : Returns (fun _ => True) m :=
  fun _ _ _ _ => trivial

theorem sof_bind {α β : Type} {X : String → Prop} {m : Script α} {f : α → Script β}
    (hm : StopsOnFailure X m) (hf : ∀ a, StopsOnFailure X (f a)) :
    StopsOnFailure X (m >>= f) :=
  sof_bind_val hm (returns_true m) (fun a _ => hf a)

/-- A piece of the script in which no command fails stops on failure. -/
theorem sof_of_emits {α : Type} {X : String → Prop} {m : Script α}
    (h : Emits (fun ev => ∀ cmd, ev ≠ .execSync cmd none) m) : StopsOnFailure X m := by
  intro s
  obtain ⟨evs, h1, h2⟩ := h s
  exact ⟨evs, h1, Or.inl fun cmd hmem => absurd rfl (h2 _ hmem cmd)⟩

theorem sof_execSync (X : String → Prop) (env : Env) (cmd : String) :
    StopsOnFailure X (execSync env cmd) := by
  intro s
  cases h : env.execSync s.trace cmd with
  | none =>
    refine ⟨[.execSync cmd none], by simp [execSync, h, Res.state, State.push], Or.inr ?_⟩
    exact ⟨[], cmd, s.push (.execSync cmd none), rfl, fun _ hm => by simp at hm,
      by simp [execSync, h]⟩
  | some out =>
    refine ⟨[.execSync cmd (some out)], by simp [execSync, h, Res.state, State.push],
      Or.inl ?_⟩
    intro c hm
    simp at hm

theorem sof_quiet_emit (X : String → Prop) {e : Event} (h : ∀ cmd, e ≠ .execSync cmd none) :
    StopsOnFailure X (emit e) :=
  sof_of_emits (emits_emit h)

theorem sof_consoleLog (X : String → Prop) (msg : String) :
    StopsOnFailure X (consoleLog msg) :=
  sof_quiet_emit X (by simp)

theorem sof_pure {α : Type} (X : String → Prop) (a : α) : StopsOnFailure X (pure a : Script α) :=
  sof_of_emits (emits_pure _ a)

theorem sof_chdir (X : String → Prop) (env : Env) (dir : String) :
    StopsOnFailure X (chdir env dir) :=
  sof_of_emits (emits_chdir env (by simp))

theorem sof_registerApp {X : String → Prop} (env : Env) (name platform : String)
    (hX : X (addAppCommand name platform)) : StopsOnFailure X (registerApp env name platform) := by
  intro s
  rw [registerApp_eq]
  cases env.execSync (s.trace ++ [.consoleLog (creatingMessage name platform)])
      (addAppCommand name platform) with
  | none =>
    refine ⟨_, rfl, Or.inl ?_⟩
    intro cmd hm
    simp at hm
    rw [hm]
    exact hX
  | some out =>
    refine ⟨_, rfl, Or.inl ?_⟩
    intro cmd hm
    simp at hm

theorem sof_rnXcodeShLocationFolder {X : String → Prop} (env : Env) (selector : String)
    (hX : X versionsQuery) : StopsOnFailure X (rnXcodeShLocationFolder env selector) := by
  intro s
  obtain ⟨folder, hf, -, -⟩ := rnXcodeShLocationFolder_eq env selector s _ rfl
  rw [hf]
  refine ⟨[.execSync versionsQuery (env.execSync s.trace versionsQuery)],
    by simp [Res.state, State.push], Or.inl ?_⟩
  intro cmd hm
  simp only [List.mem_singleton, Event.execSync.injEq] at hm
  rw [hm.1]
  exact hX

theorem sof_createCodePushApp {X : String → Prop} (env : Env) (name platform : String)
    (hX : X (addAppCommand name platform)) :
    StopsOnFailure X (createCodePushApp env name platform) := by
  unfold createCodePushApp
  refine sof_bind (sof_registerApp env name platform hX) fun _ => ?_
  refine sof_bind (sof_execSync X env _) fun out => ?_
  refine sof_bind (sof_of_emits (emits_jsonParse _ env out)) fun j => ?_
  refine sof_bind (sof_of_emits (emits_liftExcept _ _)) fun second => ?_
  refine sof_bind (sof_of_emits (emits_liftExcept _ _)) fun key => ?_
  refine sof_bind (sof_of_emits (emits_liftExcept _ _)) fun keyText => ?_
  refine sof_bind (sof_consoleLog X _) fun _ => ?_
  refine sof_bind (sof_consoleLog X _) fun _ => ?_
  exact sof_of_emits (emits_storeKey _ platform key)

theorem sof_generatePlainReactNativeApp (X : String → Prop) (env : Env)
    (appName selector : String) :
    StopsOnFailure X (generatePlainReactNativeApp env appName selector) := by
  unfold generatePlainReactNativeApp
  refine sof_bind (sof_consoleLog X _) fun _ => ?_
  refine sof_bind (sof_execSync X env _) fun _ => ?_
  exact sof_consoleLog X _

theorem sof_installCodePush (X : String → Prop) (env : Env) (selector : String) :
    StopsOnFailure X (installCodePush env selector) := by
  unfold installCodePush
  refine sof_bind (sof_consoleLog X _) fun _ => ?_
  refine sof_bind (sof_execSync X env _) fun _ => ?_
  exact sof_consoleLog X _

theorem sof_optimizeToTestInDebugMode {X : String → Prop} (env : Env)
    (appName selector : String) (hX : X versionsQuery) :
    StopsOnFailure X (optimizeToTestInDebugMode env appName selector) := by
  unfold optimizeToTestInDebugMode
  refine sof_bind (sof_rnXcodeShLocationFolder env selector hX) fun folder => ?_
  refine sof_bind (sof_execSync X env _) fun _ => ?_
  refine sof_bind (sof_execSync X env _) fun _ => ?_
  refine sof_bind (sof_execSync X env _) fun _ => ?_
  exact sof_pure X ()

theorem sof_grantAccess (X : String → Prop) (env : Env) (folderPath : String) :
    StopsOnFailure X (grantAccess env folderPath) := by
  unfold grantAccess
  refine sof_bind (sof_execSync X env _) fun _ => ?_
  refine sof_bind (sof_execSync X env _) fun _ => ?_
  exact sof_pure X ()

theorem sof_writeFileCallback {X : String → Prop} (env : Env) (appName selector : String)
    (written : Bool) (hX : X versionsQuery) :
    StopsOnFailure X (writeFileCallback env appName selector written) := by
  unfold writeFileCallback
  split
  · refine sof_bind ?_ fun _ => ?_
    · split
      · exact sof_pure X ()
      · refine sof_bind (sof_optimizeToTestInDebugMode env appName selector hX) fun _ => ?_
        refine sof_bind (sof_chdir X env _) fun _ => ?_
        exact sof_grantAccess X env appName
    · refine sof_bind (sof_consoleLog X _) fun _ => ?_
      exact sof_of_emits (emits_processExit (by simp))
  · exact sof_quiet_emit X (by simp)

theorem sof_readFileCallback {X : String → Prop} (env : Env) (appName selector : String)
    (read : Option String) (hX : X versionsQuery) :
    StopsOnFailure X (readFileCallback env appName selector read) := by
  unfold readFileCallback
  split
  · exact sof_quiet_emit X (by simp)
  · refine sof_bind (sof_of_emits (emits_writeFile env (by simp))) fun written => ?_
    exact sof_writeFileCallback env appName selector written hX

theorem sof_setupAssets {X : String → Prop} (env : Env) (appName selector : String)
    (fuel : Nat) (hX : X versionsQuery) :
    StopsOnFailure X (setupAssets env appName selector fuel) := by
  unfold setupAssets
  refine sof_bind (sof_of_emits (emits_copyAssets env ?_ fuel)) fun _ => ?_
  · intro ev hev cmd h
    subst h
    simp [Event.isAssetFileOp] at hev
  · refine sof_bind (sof_of_emits (emits_readFile env (by simp))) fun read => ?_
    exact sof_readFileCallback env appName selector read hX

/-- The prompt automation runs no command with `execSync`. -/
theorem emits_nexpectRun {P : Event → Prop} (env : Env) (cmd : String)
    (steps : List NexpectStep) (hspawn : P (.spawn cmd)) (hexit : P .childExit)
    (htalk : ∀ ev, ev.isChildTalk = true → P ev) : Emits P (nexpectRun env cmd steps) := by
  intro s
  obtain ⟨rest, evs, -, -, hall, hrun⟩ := nexpectRun_eq env cmd steps s
  rw [hrun]
  split
  · refine ⟨[.spawn cmd] ++ evs ++ [.childExit], by simp [Res.state], ?_⟩
    intro ev hev
    simp only [List.mem_append, List.mem_singleton] at hev
    rcases hev with (h | h) | h
    · rw [h]; exact hspawn
    · exact htalk ev (hall ev h)
    · rw [h]; exact hexit
  · refine ⟨[.spawn cmd] ++ evs, by simp [Res.state], ?_⟩
    intro ev hev
    simp only [List.mem_append, List.mem_singleton] at hev
    rcases hev with h | h
    · rw [h]; exact hspawn
    · exact htalk ev (hall ev h)

theorem sof_linkCodePush {X : String → Prop} (env : Env) (p : Params) (fuel : Nat)
    (kA kI : JsVal) (hX : X versionsQuery) :
    StopsOnFailure X (linkCodePush env p fuel kA kI) := by
  unfold linkCodePush
  refine sof_bind (sof_consoleLog X _) fun _ => ?_
  refine sof_bind (sof_of_emits (emits_nexpectRun env _ _ (by simp) (by simp) ?_)) fun err => ?_
  · intro ev hev cmd h
    subst h
    simp [Event.isChildTalk] at hev
  · unfold linkCallback
    split
    · refine sof_bind (sof_consoleLog X _) fun _ => ?_
      exact sof_setupAssets env _ _ fuel hX
    · exact sof_quiet_emit X (by simp)

theorem sof_generate {X : String → Prop} (env : Env) (p : Params) (fuel : Nat)
    (hX : X versionsQuery) (hA : X (addAppCommand p.appNameAndroid "android"))
    (hI : X (addAppCommand p.appNameIOS "ios")) : StopsOnFailure X (generate env p fuel) := by
  unfold generate
  refine sof_bind (sof_createCodePushApp env _ _ hA) fun _ => ?_
  refine sof_bind (sof_createCodePushApp env _ _ hI) fun _ => ?_
  refine sof_bind (sof_generatePlainReactNativeApp X env _ _) fun _ => ?_
  refine sof_bind (sof_chdir X env _) fun _ => ?_
  refine sof_bind (sof_installCodePush X env _) fun _ => ?_
  refine sof_bind (sof_of_emits (emits_getState _)) fun st => ?_
  exact sof_linkCodePush env p fuel _ _ hX

theorem returns_bind {α β : Type} {Q : β → Prop} {m : Script α} {f : α → Script β}
    (hf : ∀ a, Returns Q (f a)) : Returns Q (m >>= f) := by
  intro s b s1 h
  simp only [bind_apply, Script.bind] at h
  cases hr : m s with
  | ok a s2 => rw [hr] at h; exact hf a s2 b s1 h
  | threw e s2 => rw [hr] at h; cases h
  | exited s2 => rw [hr] at h; cases h
  | hung s2 => rw [hr] at h; cases h
  | outOfFuel s2 => rw [hr] at h; cases h

theorem returns_pure {α : Type} {Q : α → Prop} {a : α} (h : Q a) :
    Returns Q (pure a : Script α) := by
  intro s b s1 hb
  simp only [pure_apply, Res.ok.injEq] at hb
  rw [← hb.1]
  exact h

theorem returns_processExit {α : Type} (Q : α → Prop) : Returns Q (processExit : Script α) := by
  intro s b s1 hb
  simp [processExit] at hb

/-- The names the prologue returns are those of the app named by the
arguments. -/
theorem returns_prologue (env : Env) (args : List String) :
    Returns (fun p => p.appName = appNameOf args ∧
      p.appNameAndroid = appNameOf args ++ "-android" ∧
      p.appNameIOS = appNameOf args ++ "-ios") (prologue env args) := by
  unfold prologue
  refine returns_bind fun found => ?_
  split
  · exact returns_bind fun _ => returns_processExit _
  · refine returns_bind fun v1 => returns_bind fun v2 => returns_bind fun _ =>
      returns_bind fun _ => returns_bind fun _ => returns_pure ⟨rfl, rfl, rfl⟩

theorem sof_orElse {X : String → Prop} (arg : Option String) {dflt : Script String}
    (h : StopsOnFailure X dflt) : StopsOnFailure X (orElse arg dflt) := by
  unfold orElse
  split
  · split
    · exact h
    · exact sof_pure X _
  · exact h

theorem sof_prologue (X : String → Prop) (env : Env) (args : List String) :
    StopsOnFailure X (prologue env args) := by
  unfold prologue
  refine sof_bind (sof_of_emits (emits_existsSync env (by simp))) fun found => ?_
  split
  · refine sof_bind (sof_quiet_emit X (by simp)) fun _ => ?_
    exact sof_of_emits (emits_processExit (by simp))
  · refine sof_bind (sof_orElse _ (sof_bind (sof_execSync X env _) fun _ => sof_pure X _))
      fun v1 => ?_
    refine sof_bind (sof_orElse _ (sof_bind (sof_execSync X env _) fun _ => sof_pure X _))
      fun v2 => ?_
    refine sof_bind (sof_consoleLog X _) fun _ => ?_
    refine sof_bind (sof_consoleLog X _) fun _ => ?_
    refine sof_bind (sof_consoleLog X _) fun _ => ?_
    exact sof_pure X _

theorem sof_main (env : Env) (args : List String) (fuel : Nat) :
    StopsOnFailure (fun cmd => IsRegistration (appNameOf args) cmd ∨ cmd = versionsQuery)
      (main env args fuel) := by
  unfold main
  refine sof_bind_val (sof_prologue _ env args) (returns_prologue env args) ?_
  rintro p ⟨-, hA, hI⟩
  refine sof_generate env p fuel (Or.inr rfl) (Or.inl (Or.inl ?_)) (Or.inl (Or.inr ?_))
  · rw [hA]
  · rw [hI]

theorem last_of_append_singleton {α : Type} {pre post init : List α} {x y : α}
    (h : pre ++ [x] ++ post = init ++ [y]) : (post = [] ∧ x = y) ∨ x ∈ init := by
  rcases List.eq_nil_or_concat post with hp | ⟨post1, z, hp⟩
  · subst hp
    simp only [List.append_nil] at h
    have := List.append_inj' h rfl
    exact Or.inl ⟨rfl, by simpa using this.2⟩
  · subst hp
    rw [List.concat_eq_append, ← List.append_assoc] at h
    have := List.append_inj' h rfl
    right
    rw [← this.1]
    simp

/-- C7, as the specification states it, fails: in the world
`envVersionsQueryFails` the registry query of `optimizeToTestInDebugMode`, which
is not an app registration, exits non-zero and the run goes on with the perl
edit and the seven events after it. -/
theorem failure_stops_counterexample :
    ¬ FailureStops (IsRegistration (appNameOf ["Demo"]))
      (run envVersionsQueryFails ["Demo"] 2) := by
  intro h
  have hne : ¬ IsRegistration (appNameOf ["Demo"]) versionsQuery := by
    rintro (h1 | h1) <;> revert h1 <;> decide
  have ht : (run envVersionsQueryFails ["Demo"] 2).state.trace =
      (run envVersionsQueryFails ["Demo"] 2).state.trace.take 51 ++
        [Event.execSync versionsQuery none] ++
        (run envVersionsQueryFails ["Demo"] 2).state.trace.drop 52 := by
    rfl
  have hpost := (h _ _ _ ht hne).1
  have hlen : ((run envVersionsQueryFails ["Demo"] 2).state.trace.drop 52).length = 8 := by
    rfl
  rw [hpost] at hlen
  simp at hlen

/-- C7, amended: for every command run with `execSync` other than the two app
registrations and the registry query for the list of versions, whose failures
are caught, a non-zero exit is the last event of the run, which ends with the
exception of that failure. -/
theorem failure_stops_script (env : Env) (args : List String) (fuel : Nat) :
    FailureStops (fun cmd => IsRegistration (appNameOf args) cmd ∨ cmd = versionsQuery)
      (run env args fuel) := by
  intro pre cmd post ht hne
  obtain ⟨evs, h1, h2⟩ := sof_main env args fuel State.init
  have h3 : (run env args fuel).state.trace = evs := by
    simpa [run, State.init] using h1
  rw [h3] at ht
  rcases h2 with hclean | ⟨init, c, st, hevs, hclean, hres⟩
  · exact absurd (hclean cmd (by rw [ht]; simp)) hne
  · rw [hevs] at ht
    rcases last_of_append_singleton ht.symm with ⟨hp, hx⟩ | hmem
    · simp only [Event.execSync.injEq, and_true] at hx
      exact ⟨hp, st, by rw [hx]; exact hres⟩
    · exact absurd (hclean cmd hmem) hne

/-! ## The keys and the linking step -/

theorem ordinary_consoleLog (msg : String) : (Event.consoleLog msg).isOrdinary = true := rfl

theorem emits_registerApp_ordinary (env : Env) (name platform : String) :
    Emits (fun ev => ev.isOrdinary = true) (registerApp env name platform) := by
  unfold registerApp
  refine emits_tryCatch ?_ fun _ => emits_emit rfl
  refine emits_bind' (emits_emit rfl) fun _ => ?_
  refine emits_bind' (emits_execSync env fun _ => rfl) fun _ => ?_
  exact emits_emit rfl

theorem emits_createCodePushApp_ordinary (env : Env) (name platform : String) :
    Emits (fun ev => ev.isOrdinary = true) (createCodePushApp env name platform) := by
  unfold createCodePushApp
  refine emits_bind' (emits_registerApp_ordinary env name platform) fun _ => ?_
  refine emits_bind' (emits_execSync env fun _ => rfl) fun out => ?_
  refine emits_bind' (emits_jsonParse _ env out) fun j => ?_
  refine emits_bind' (emits_liftExcept _ _) fun second => ?_
  refine emits_bind' (emits_liftExcept _ _) fun key => ?_
  refine emits_bind' (emits_liftExcept _ _) fun keyText => ?_
  refine emits_bind' (emits_emit rfl) fun _ => ?_
  refine emits_bind' (emits_emit rfl) fun _ => ?_
  exact emits_storeKey _ platform key

theorem emits_generatePlainReactNativeApp_ordinary (env : Env) (appName selector : String) :
    Emits (fun ev => ev.isOrdinary = true)
      (generatePlainReactNativeApp env appName selector) := by
  unfold generatePlainReactNativeApp
  refine emits_bind' (emits_emit rfl) fun _ => ?_
  refine emits_bind' (emits_execSync env fun _ => rfl) fun _ => ?_
  exact emits_emit rfl

theorem emits_installCodePush_ordinary (env : Env) (selector : String) :
    Emits (fun ev => ev.isOrdinary = true) (installCodePush env selector) := by
  unfold installCodePush
  refine emits_bind' (emits_emit rfl) fun _ => ?_
  refine emits_bind' (emits_execSync env fun _ => rfl) fun _ => ?_
  exact emits_emit rfl

theorem emits_orElse {P : Event → Prop} (arg : Option String) {dflt : Script String}
    (h : Emits P dflt) : Emits P (orElse arg dflt) := by
  unfold orElse
  split
  · split
    · exact h
    · exact emits_pure P _
  · exact h

theorem emits_prologue_ordinary (env : Env) (args : List String) :
    Emits (fun ev => ev.isOrdinary = true) (prologue env args) := by
  unfold prologue
  refine emits_bind' (emits_existsSync env fun _ => rfl) fun found => ?_
  split
  · refine emits_bind' (emits_emit rfl) fun _ => ?_
    exact emits_processExit rfl
  · refine emits_bind' (emits_orElse _
      (emits_bind' (emits_execSync env fun _ => rfl) fun _ => emits_pure _ _)) fun v1 => ?_
    refine emits_bind' (emits_orElse _
      (emits_bind' (emits_execSync env fun _ => rfl) fun _ => emits_pure _ _)) fun v2 => ?_
    refine emits_bind' (emits_emit rfl) fun _ => ?_
    refine emits_bind' (emits_emit rfl) fun _ => ?_
    refine emits_bind' (emits_emit rfl) fun _ => ?_
    exact emits_pure _ _

theorem emits_rnXcodeShLocationFolder_ordinary (env : Env) (selector : String) :
    Emits (fun ev => ev.isOrdinary = true) (rnXcodeShLocationFolder env selector) := by
  intro s
  obtain ⟨folder, hf, -, -⟩ := rnXcodeShLocationFolder_eq env selector s _ rfl
  rw [hf]
  refine ⟨[.execSync versionsQuery (env.execSync s.trace versionsQuery)],
    by simp [Res.state, State.push], ?_⟩
  intro ev hev
  simp only [List.mem_singleton] at hev
  subst hev
  rfl

theorem emits_writeFileCallback_ordinary (env : Env) (appName selector : String)
    (written : Bool) :
    Emits (fun ev => ev.isOrdinary = true) (writeFileCallback env appName selector written) := by
  unfold writeFileCallback
  split
  · refine emits_bind' ?_ fun _ => ?_
    · split
      · exact emits_pure _ ()
      · refine emits_bind' ?_ fun _ => ?_
        · unfold optimizeToTestInDebugMode
          refine emits_bind' (emits_rnXcodeShLocationFolder_ordinary env selector) fun _ => ?_
          refine emits_bind' (emits_execSync env fun _ => rfl) fun _ => ?_
          refine emits_bind' (emits_execSync env fun _ => rfl) fun _ => ?_
          refine emits_bind' (emits_execSync env fun _ => rfl) fun _ => ?_
          exact emits_pure _ ()
        · refine emits_bind' (emits_chdir env fun _ => rfl) fun _ => ?_
          unfold grantAccess
          refine emits_bind' (emits_execSync env fun _ => rfl) fun _ => ?_
          refine emits_bind' (emits_execSync env fun _ => rfl) fun _ => ?_
          exact emits_pure _ ()
    · refine emits_bind' (emits_emit rfl) fun _ => ?_
      exact emits_processExit rfl
  · exact emits_emit rfl

theorem emits_setupAssets_ordinary (env : Env) (appName selector : String) (fuel : Nat) :
    Emits (fun ev => ev.isOrdinary = true) (setupAssets env appName selector fuel) := by
  unfold setupAssets
  refine emits_bind' (emits_copyAssets env ?_ fuel) fun _ => ?_
  · intro ev hev
    cases ev <;> simp [Event.isAssetFileOp] at hev <;> rfl
  · refine emits_bind' (emits_readFile env fun _ => rfl) fun read => ?_
    unfold readFileCallback
    split
    · exact emits_emit rfl
    · refine emits_bind' (emits_writeFile env fun _ => rfl) fun written => ?_
      exact emits_writeFileCallback_ordinary env appName selector written

theorem sentLines_ordinary {evs : List Event} (h : ∀ ev ∈ evs, ev.isOrdinary = true) :
    sentLines evs = [] := by
  induction evs with
  | nil => rfl
  | cons ev evs ih =>
    have h1 := h ev (List.mem_cons_self _ _)
    have h2 := ih fun e he => h e (List.mem_cons_of_mem _ he)
    cases ev <;> simp [Event.isOrdinary] at h1 <;> simpa [sentLines] using h2

theorem spawn_not_ordinary {evs : List Event} (h : ∀ ev ∈ evs, ev.isOrdinary = true)
    (cmd : String) : Event.spawn cmd ∉ evs :=
  fun hmem => by simpa [Event.isOrdinary] using h _ hmem

theorem flushSends_startsWithWait (steps : List NexpectStep) (s st : State)
    (rest : List NexpectStep) (h : flushSends steps s = .ok rest st) :
    startsWithWait rest = true := by
  induction steps generalizing s with
  | nil => simp [flushSends] at h; rw [h.1]; rfl
  | cons step steps ih =>
    cases step with
    | wait expected => simp [flushSends] at h; rw [← h.1]; rfl
    | sendline line => exact ih _ (by simpa [flushSends] using h)

theorem feedChunks_startsWithWait (chunks : List String) (steps : List NexpectStep)
    (s st : State) (rest : List NexpectStep) (hs : startsWithWait steps = true)
    (h : feedChunks steps chunks s = .ok rest st) : startsWithWait rest = true := by
  induction chunks generalizing steps s with
  | nil =>
    simp only [feedChunks, pure_apply, Res.ok.injEq] at h
    have h1 := h.1
    subst h1
    exact hs
  | cons chunk more ih =>
    cases steps with
    | nil => exact ih [] _ hs (by simpa [feedChunks] using h)
    | cons step steps1 =>
      cases step with
      | sendline line => simp [startsWithWait] at hs
      | wait expected =>
        by_cases hc : containsText expected chunk = true
        · simp only [feedChunks, hc, if_true, Script.bind] at h
          obtain ⟨r1, e1, h1, -⟩ := flushSends_eq steps1 (s.push (.childData chunk))
          rw [h1] at h
          exact ih r1 _ (flushSends_startsWithWait _ _ _ _ h1) h
        · exact ih _ _ hs (by simpa [feedChunks, hc] using h)

theorem pendingWait_none_of_startsWithWait {rest : List NexpectStep}
    (h : startsWithWait rest = true) (hp : pendingWait rest = none) : rest = [] := by
  cases rest with
  | nil => rfl
  | cons step rest1 =>
    cases step with
    | wait expected => simp [pendingWait] at hp
    | sendline line => simp [startsWithWait] at h

/-- When the callback of `nexpectRun` receives no error, every reply line of
the chain has been sent. -/
theorem nexpectRun_ok_none (env : Env) (cmd : String) (steps : List NexpectStep)
    (s s1 : State) (h : nexpectRun env cmd steps s = .ok none s1) :
    ∃ evs, s1.trace = s.trace ++ [.spawn cmd] ++ evs ++ [.childExit] ∧
      sentLines evs = sendsOf steps ∧ (∀ ev ∈ evs, ev.isChildTalk = true) ∧
      s1.androidStagingDeploymentKey = s.androidStagingDeploymentKey ∧
      s1.iosStagingDeploymentKey = s.iosStagingDeploymentKey := by
  obtain ⟨r1, e1, h1, hsuf1, hsend1, hall1⟩ := flushSends_eq steps (s.push (.spawn cmd))
  obtain ⟨r2, e2, h2, hsuf2, hsend2, hall2⟩ := feedChunks_eq (env.spawn s.trace cmd).output r1
    ⟨(s.push (.spawn cmd)).trace ++ e1, s.androidStagingDeploymentKey,
      s.iosStagingDeploymentKey⟩
  have hw := feedChunks_startsWithWait _ _ _ _ _ (flushSends_startsWithWait _ _ _ _ h1) h2
  simp only [State.push] at h1 h2
  simp only [nexpectRun, Script.bind, State.push, h1, h2] at h
  split at h
  · simp only [Res.ok.injEq, Option.map_eq_none'] at h
    have hr2 := pendingWait_none_of_startsWithWait hw h.1
    subst hr2
    refine ⟨e1 ++ e2, ?_, ?_, ?_, ?_, ?_⟩
    · rw [← h.2]; simp
    · rw [sentLines_append, ← hsend1, ← hsend2]; simp [sendsOf]
    · intro ev hev
      rcases List.mem_append.mp hev with h4 | h4
      · exact hall1 ev h4
      · exact hall2 ev h4
    · rw [← h.2]
    · rw [← h.2]
  · simp at h

theorem sentLines_childTalk_prefix {evs : List Event} {rest steps : List NexpectStep}
    (h : sentLines evs ++ sendsOf rest = sendsOf steps) : sentLines evs <+: sendsOf steps :=
  ⟨sendsOf rest, h⟩

/-- The reply lines `linkCodePush` sends are a beginning of the Android key
followed by the iOS key, and both of them when the callback receives no
error. -/
theorem linkCodePush_sends (env : Env) (p : Params) (fuel : Nat) (kA kI : JsVal) (s : State) :
    ∃ evs, (linkCodePush env p fuel kA kI s).state.trace =
        s.trace ++ [.consoleLog linkingMessage, .spawn linkCommand] ++ evs ∧
      sentLines evs <+: [kA, kI] ∧
      (Event.consoleLog linkedMessage ∈ evs → sentLines evs = [kA, kI]) := by
  have hchain : sendsOf (linkChain kA kI) = [kA, kI] := rfl
  obtain ⟨rest, talk, hsuf, hsend, hall, hrun⟩ := nexpectRun_eq env linkCommand
    (linkChain kA kI) (s.push (.consoleLog linkingMessage))
  have htalk : Event.consoleLog linkedMessage ∉ talk := fun hm => by
    simpa [Event.isChildTalk] using hall _ hm
  have hpre : sentLines talk <+: [kA, kI] := hchain ▸ sentLines_childTalk_prefix hsend
  simp only [State.push] at hrun
  by_cases hex : (env.spawn (s.trace ++ [.consoleLog linkingMessage]) linkCommand).exits = true
  · rw [if_pos hex] at hrun
    cases hp : pendingWait rest with
    | some expected =>
      rw [hp] at hrun
      refine ⟨talk ++ [.childExit, .consoleLogValue (.expectationNotMet expected)], ?_, ?_, ?_⟩
      · simp [linkCodePush, Script.bind, consoleLog, emit, hrun, linkCallback, Res.state,
          State.push]
      · simpa [sentLines_append, sentLines] using hpre
      · intro hm
        rcases List.mem_append.mp hm with h1 | h1
        · exact absurd h1 htalk
        · simp at h1
    | none =>
      rw [hp] at hrun
      obtain ⟨tk, htk, hsent, hall2, -, -⟩ := nexpectRun_ok_none _ _ _ _ _ hrun
      obtain ⟨setup, hsetup, hord⟩ := emits_setupAssets_ordinary env p.appName
        p.reactNativeVersion fuel
        ⟨s.trace ++ [.consoleLog linkingMessage, .spawn linkCommand] ++ tk ++
          [.childExit, .consoleLog linkedMessage],
          s.androidStagingDeploymentKey, s.iosStagingDeploymentKey⟩
      have htkeq : talk = tk := by
        simpa using htk
      subst htkeq
      refine ⟨talk ++ [.childExit, .consoleLog linkedMessage] ++ setup, ?_, ?_, ?_⟩
      · simp only [linkCodePush, bind_apply, Script.bind, consoleLog, emit, hrun, linkCallback,
          Option.map_none', State.push]
        simp only [List.append_assoc, List.cons_append, List.nil_append] at hsetup ⊢
        rw [hsetup]
      · rw [sentLines_append, sentLines_append, sentLines_ordinary hord]
        simpa [sentLines] using hpre
      · intro _
        rw [sentLines_append, sentLines_append, sentLines_ordinary hord, hsent, hchain]
        simp [sentLines]
  · rw [if_neg hex] at hrun
    refine ⟨talk, ?_, hpre, fun hm => absurd hm htalk⟩
    simp [linkCodePush, Script.bind, consoleLog, emit, hrun, Res.state, State.push]

theorem keepsKeys_bind {α β : Type} {m : Script α} {f : α → Script β} (hm : KeepsKeys m)
    (hf : ∀ a, KeepsKeys (f a)) : KeepsKeys (m >>= f) := by
  intro s b s2 h
  simp only [bind_apply, Script.bind] at h
  cases hr : m s with
  | ok a s1 =>
    rw [hr] at h
    have h1 := hm s a s1 hr
    have h2 := hf a s1 b s2 h
    exact ⟨h2.1.trans h1.1, h2.2.trans h1.2⟩
  | threw e s1 => rw [hr] at h; cases h
  | exited s1 => rw [hr] at h; cases h
  | hung s1 => rw [hr] at h; cases h
  | outOfFuel s1 => rw [hr] at h; cases h

theorem keepsKeys_emit (e : Event) : KeepsKeys (emit e) := by
  intro s a s1 h
  simp only [emit, Res.ok.injEq] at h
  rw [← h.2]
  exact ⟨rfl, rfl⟩

theorem keepsKeys_execSync (env : Env) (cmd : String) : KeepsKeys (execSync env cmd) := by
  intro s a s1 h
  unfold execSync at h
  split at h
  · simp only [Res.ok.injEq] at h
    rw [← h.2]
    exact ⟨rfl, rfl⟩
  · cases h

theorem keepsKeys_chdir (env : Env) (dir : String) : KeepsKeys (chdir env dir) := by
  intro s a s1 h
  unfold chdir at h
  split at h
  · simp only [Res.ok.injEq] at h
    rw [← h.2]
    exact ⟨rfl, rfl⟩
  · cases h

theorem keepsKeys_generatePlainReactNativeApp (env : Env) (appName selector : String) :
    KeepsKeys (generatePlainReactNativeApp env appName selector) := by
  unfold generatePlainReactNativeApp
  exact keepsKeys_bind (keepsKeys_emit _) fun _ =>
    keepsKeys_bind (keepsKeys_execSync env _) fun _ => keepsKeys_emit _

theorem keepsKeys_installCodePush (env : Env) (selector : String) :
    KeepsKeys (installCodePush env selector) := by
  unfold installCodePush
  exact keepsKeys_bind (keepsKeys_emit _) fun _ =>
    keepsKeys_bind (keepsKeys_execSync env _) fun _ => keepsKeys_emit _

/-- One phase of the run before the linking step: either it completes, having
appended ordinary events only, and the run goes on, or the run ends in it, and
then every event of the run is ordinary. -/
theorem bind_phase {α β : Type} {m : Script α} {f : α → Script β}
    (hm : Emits (fun ev => ev.isOrdinary = true) m) (s : State)
    (hs : ∀ ev ∈ s.trace, ev.isOrdinary = true) :
    (∃ a s1 evs, m s = .ok a s1 ∧ s1.trace = s.trace ++ evs ∧
      (∀ ev ∈ s1.trace, ev.isOrdinary = true) ∧ Script.bind m f s = f a s1) ∨
    (∀ ev ∈ (Script.bind m f s).state.trace, ev.isOrdinary = true) := by
  obtain ⟨evs, h1, h2⟩ := hm s
  have hall : ∀ ev ∈ (m s).state.trace, ev.isOrdinary = true := by
    rw [h1]
    intro ev hev
    rcases List.mem_append.mp hev with h | h
    · exact hs ev h
    · exact h2 ev h
  cases hr : m s with
  | ok a s1 =>
    rw [hr] at h1 hall
    exact Or.inl ⟨a, s1, evs, rfl, h1, hall, by simp [Script.bind, hr]⟩
  | threw e s1 => rw [hr] at hall; exact Or.inr (by simpa [Script.bind, hr] using hall)
  | exited s1 => rw [hr] at hall; exact Or.inr (by simpa [Script.bind, hr] using hall)
  | hung s1 => rw [hr] at hall; exact Or.inr (by simpa [Script.bind, hr] using hall)
  | outOfFuel s1 => rw [hr] at hall; exact Or.inr (by simpa [Script.bind, hr] using hall)

/-- What `createCodePushApp` has done when it completes. -/
theorem createCodePushApp_ok (env : Env) (name platform : String) (s s2 : State) (u : Unit)
    (h : createCodePushApp env name platform s = .ok u s2) :
    ∃ reply key, stagingKeyOf env name reply = .ok key ∧
      Event.execSync (listKeysCommand name) reply ∈ s2.trace ∧
      s2.androidStagingDeploymentKey =
        (if platform = "android" then key else s.androidStagingDeploymentKey) ∧
      s2.iosStagingDeploymentKey =
        (if platform = "android" then s.iosStagingDeploymentKey
         else if platform = "ios" then key else s.iosStagingDeploymentKey) := by
  obtain ⟨s1, h1, hk1, hk2⟩ := registerApp_ok env name platform s
  rw [createCodePushApp_eq env name platform s s1 _ h1 rfl] at h
  cases hk : stagingKeyOf env name (env.execSync s1.trace (listKeysCommand name)) with
  | error e => rw [hk] at h; cases h
  | ok key =>
    rw [hk] at h
    dsimp only at h
    cases ht : key.toStr with
    | error e => rw [ht] at h; cases h
    | ok keyText =>
      rw [ht] at h
      simp only [Res.ok.injEq, true_and] at h
      refine ⟨_, key, hk, ?_, ?_, ?_⟩
      · rw [← h]; simp
      · rw [← h, ← hk1]
      · rw [← h, ← hk2]

/-- The extraction for one platform leaves the key of the other platform as
it is. -/
theorem createCodePushApp_other_key (env : Env) (name : String) (s : State) :
    (createCodePushApp env name "android" s).state.iosStagingDeploymentKey =
      s.iosStagingDeploymentKey ∧
    (createCodePushApp env name "ios" s).state.androidStagingDeploymentKey =
      s.androidStagingDeploymentKey := by
  constructor
  · obtain ⟨s1, h1, hk1, hk2⟩ := registerApp_ok env name "android" s
    rw [createCodePushApp_eq env name "android" s s1 _ h1 rfl]
    cases stagingKeyOf env name (env.execSync s1.trace (listKeysCommand name)) with
    | error e => simpa [Res.state, State.push] using hk2
    | ok key =>
      dsimp only
      cases key.toStr with
      | error e => simpa [Res.state, State.push] using hk2
      | ok keyText => simpa [Res.state] using hk2
  · obtain ⟨s1, h1, hk1, hk2⟩ := registerApp_ok env name "ios" s
    rw [createCodePushApp_eq env name "ios" s s1 _ h1 rfl]
    cases stagingKeyOf env name (env.execSync s1.trace (listKeysCommand name)) with
    | error e => simpa [Res.state, State.push] using hk1
    | ok key =>
      dsimp only
      cases key.toStr with
      | error e => simpa [Res.state, State.push] using hk1
      | ok keyText => simpa [Res.state] using hk1

theorem stagingKeyOf_two_records (env : Env) (name : String) (reply : Option String)
    (key : JsVal) (h : stagingKeyOf env name reply = .ok key) (out : String) (first : Json)
    (fields : List (String × Json)) (rest : List Json) (hr : reply = some out)
    (hp : env.jsonParse out = some (.arr (first :: .obj fields :: rest))) :
    key = lookupField "key" fields := by
  subst hr
  simp [stagingKeyOf, hp, getIndex1, getKey] at h
  exact h.symm

/-- C9: in every run in which the linking step starts, the run is
`linkCodePush` called with two keys from a state in which the two variables hold
these keys, nothing has been spawned or sent, and both listing commands have
been run; each key is the one lines 65 and 66 extract from the reply to the
listing for its platform, hence the `key` field of the second record when the
reply parses to at least two records; the lines sent are a beginning of the
Android key followed by the iOS key, and both when the callback receives no
error; and the extraction for one platform never changes the key of the
other. -/
theorem keys_before_link (env : Env) (args : List String) (fuel : Nat)
    (h : Event.spawn linkCommand ∈ (run env args fuel).state.trace) :
    (∃ (p : Params) (s5 : State) (rA rI : Option String) (kA kI : JsVal),
      run env args fuel = linkCodePush env p fuel kA kI s5 ∧
      s5.androidStagingDeploymentKey = kA ∧ s5.iosStagingDeploymentKey = kI ∧
      (∀ ev ∈ s5.trace, ev.isOrdinary = true) ∧
      Event.execSync (listKeysCommand (appNameOf args ++ "-android")) rA ∈ s5.trace ∧
      Event.execSync (listKeysCommand (appNameOf args ++ "-ios")) rI ∈ s5.trace ∧
      stagingKeyOf env (appNameOf args ++ "-android") rA = .ok kA ∧
      stagingKeyOf env (appNameOf args ++ "-ios") rI = .ok kI ∧
      (∀ out first fields rest, rA = some out →
        env.jsonParse out = some (.arr (first :: .obj fields :: rest)) →
        kA = lookupField "key" fields) ∧
      (∀ out first fields rest, rI = some out →
        env.jsonParse out = some (.arr (first :: .obj fields :: rest)) →
        kI = lookupField "key" fields) ∧
      ∃ evs, (run env args fuel).state.trace =
          s5.trace ++ [.consoleLog linkingMessage, .spawn linkCommand] ++ evs ∧
        sentLines evs <+: [kA, kI] ∧
        (Event.consoleLog linkedMessage ∈ evs → sentLines evs = [kA, kI])) ∧
    (∀ (name : String) (s : State),
      (createCodePushApp env name "android" s).state.iosStagingDeploymentKey =
        s.iosStagingDeploymentKey ∧
      (createCodePushApp env name "ios" s).state.androidStagingDeploymentKey =
        s.androidStagingDeploymentKey) := by
  refine ⟨?_, fun name s => createCodePushApp_other_key env name s⟩
  have hno : ∀ {r : Res Unit}, run env args fuel = r →
      (∀ ev ∈ r.state.trace, ev.isOrdinary = true) → False := by
    intro r hr hall
    rw [hr] at h
    exact spawn_not_ordinary hall _ h
  have hrun : run env args fuel = Script.bind (prologue env args) (fun p => generate env p fuel)
      State.init := rfl
  rcases bind_phase (f := fun p => generate env p fuel) (emits_prologue_ordinary env args)
    State.init (by simp [State.init]) with ⟨p, s0, e0, hp, -, ho0, hb0⟩ | hord
  swap
  · exact (hno hrun hord).elim
  obtain ⟨hn, hnA, hnI⟩ := returns_prologue env args State.init p s0 hp
  rw [hb0] at hrun
  have hgen : generate env p fuel s0 =
      Script.bind (createCodePushApp env p.appNameAndroid "android") (fun _ =>
        Script.bind (createCodePushApp env p.appNameIOS "ios") (fun _ =>
          Script.bind (generatePlainReactNativeApp env p.appName p.reactNativeVersion) (fun _ =>
            Script.bind (chdir env p.appName) (fun _ =>
              Script.bind (installCodePush env p.reactNativeCodePushVersion) (fun _ =>
                Script.bind getState (fun s =>
                  linkCodePush env p fuel s.androidStagingDeploymentKey
                    s.iosStagingDeploymentKey)))))) s0 := rfl
  rw [hgen] at hrun
  rcases bind_phase (emits_createCodePushApp_ordinary env p.appNameAndroid "android") s0 ho0
    with ⟨u1, s1, e1, h1, ht1, ho1, hb1⟩ | hord
  swap
  · exact (hno hrun hord).elim
  rw [hb1] at hrun
  rcases bind_phase (emits_createCodePushApp_ordinary env p.appNameIOS "ios") s1 ho1
    with ⟨u2, s2, e2, h2, ht2, ho2, hb2⟩ | hord
  swap
  · exact (hno hrun hord).elim
  rw [hb2] at hrun
  rcases bind_phase (emits_generatePlainReactNativeApp_ordinary env p.appName
    p.reactNativeVersion) s2 ho2 with ⟨u3, s3, e3, h3, ht3, ho3, hb3⟩ | hord
  swap
  · exact (hno hrun hord).elim
  rw [hb3] at hrun
  rcases bind_phase (@emits_chdir (fun ev => ev.isOrdinary = true) env p.appName
    (fun _ => rfl)) s3 ho3 with ⟨u4, s4, e4, h4, ht4, ho4, hb4⟩ | hord
  swap
  · exact (hno hrun hord).elim
  rw [hb4] at hrun
  rcases bind_phase (emits_installCodePush_ordinary env p.reactNativeCodePushVersion) s4 ho4
    with ⟨u5, s5, e5, h5, ht5, ho5, hb5⟩ | hord
  swap
  · exact (hno hrun hord).elim
  rw [hb5] at hrun
  have hget : Script.bind getState (fun s =>
      linkCodePush env p fuel s.androidStagingDeploymentKey s.iosStagingDeploymentKey) s5 =
      linkCodePush env p fuel s5.androidStagingDeploymentKey s5.iosStagingDeploymentKey s5 :=
    rfl
  rw [hget] at hrun
  obtain ⟨rA, kA, hkA, hmA, haA, hiA⟩ := createCodePushApp_ok env _ _ _ _ _ h1
  obtain ⟨rI, kI, hkI, hmI, haI, hiI⟩ := createCodePushApp_ok env _ _ _ _ _ h2
  simp only [if_true] at haA hiA
  have hios : ("ios" = "android") = False := by decide
  simp only [hios, if_false, if_true] at haI hiI
  have k3 := keepsKeys_generatePlainReactNativeApp env _ _ _ _ _ h3
  have k4 := keepsKeys_chdir env _ _ _ _ h4
  have k5 := keepsKeys_installCodePush env _ _ _ _ h5
  have hA5 : s5.androidStagingDeploymentKey = kA := by
    rw [k5.1, k4.1, k3.1, haI, haA]
  have hI5 : s5.iosStagingDeploymentKey = kI := by
    rw [k5.2, k4.2, k3.2, hiI]
  rw [hnA] at hmA hkA
  rw [hnI] at hmI hkI
  have hmem1 : ∀ ev, ev ∈ s1.trace → ev ∈ s5.trace := by
    intro ev hev
    rw [ht5, ht4, ht3, ht2]
    simp [hev]
  have hmem2 : ∀ ev, ev ∈ s2.trace → ev ∈ s5.trace := by
    intro ev hev
    rw [ht5, ht4, ht3]
    simp [hev]
  obtain ⟨evs, hevs, hpre, hfull⟩ := linkCodePush_sends env p fuel kA kI s5
  refine ⟨p, s5, rA, rI, kA, kI, ?_, hA5, hI5, ho5, hmem1 _ hmA, hmem2 _ hmI, hkA, hkI, ?_, ?_,
    evs, ?_, hpre, hfull⟩
  · rw [hrun, hA5, hI5]
  · intro out first fields rest hr hparse
    exact stagingKeyOf_two_records env _ rA kA hkA out first fields rest hr hparse
  · intro out first fields rest hr hparse
    exact stagingKeyOf_two_records env _ rI kI hkI out first fields rest hr hparse
  · rw [hrun, hA5, hI5]
    exact hevs

theorem keys_before_link_witness :
    Event.spawn linkCommand ∈ (run envHappy ["Demo"] 2).state.trace ∧
    ((∃ (p : Params) (s5 : State) (rA rI : Option String) (kA kI : JsVal),
      run envHappy ["Demo"] 2 = linkCodePush envHappy p 2 kA kI s5 ∧
      s5.androidStagingDeploymentKey = kA ∧ s5.iosStagingDeploymentKey = kI ∧
      (∀ ev ∈ s5.trace, ev.isOrdinary = true) ∧
      Event.execSync (listKeysCommand (appNameOf ["Demo"] ++ "-android")) rA ∈ s5.trace ∧
      Event.execSync (listKeysCommand (appNameOf ["Demo"] ++ "-ios")) rI ∈ s5.trace ∧
      stagingKeyOf envHappy (appNameOf ["Demo"] ++ "-android") rA = .ok kA ∧
      stagingKeyOf envHappy (appNameOf ["Demo"] ++ "-ios") rI = .ok kI ∧
      (∀ out first fields rest, rA = some out →
        envHappy.jsonParse out = some (.arr (first :: .obj fields :: rest)) →
        kA = lookupField "key" fields) ∧
      (∀ out first fields rest, rI = some out →
        envHappy.jsonParse out = some (.arr (first :: .obj fields :: rest)) →
        kI = lookupField "key" fields) ∧
      ∃ evs, (run envHappy ["Demo"] 2).state.trace =
          s5.trace ++ [.consoleLog linkingMessage, .spawn linkCommand] ++ evs ∧
        sentLines evs <+: [kA, kI] ∧
        (Event.consoleLog linkedMessage ∈ evs → sentLines evs = [kA, kI])) ∧
    (∀ (name : String) (s : State),
      (createCodePushApp envHappy name "android" s).state.iosStagingDeploymentKey =
        s.iosStagingDeploymentKey ∧
      (createCodePushApp envHappy name "ios" s).state.androidStagingDeploymentKey =
        s.androidStagingDeploymentKey)) :=
  ⟨List.getElem?_mem (n := 26) rfl,
    keys_before_link envHappy ["Demo"] 2 (List.getElem?_mem (n := 26) rfl)⟩

/-- In the world `envHappy` the two lines sent to the linking tool are the
staging key of the Android app and the staging key of the iOS app. -/
theorem sent_lines_example :
    sentLines (run envHappy ["Demo"] 2).state.trace =
      [.val (.str "staging-key"), .val (.str "staging-key")] := by
  rfl

/-! ## The substitution of the app name -/

theorem getSubstitution_plain (matched before after : List Char) :
    ∀ repl : List Char, '$' ∉ repl → getSubstitution matched before after repl = repl
  | [], _ => rfl
  | [_], _ => rfl
  | c :: d :: rest, h => by
    have hc : ¬ c = '$' := fun hc => h (by simp [hc])
    have h2 : '$' ∉ d :: rest := fun hm => h (List.mem_cons_of_mem _ hm)
    simp only [getSubstitution, hc, if_false]
    rw [getSubstitution_plain matched before after (d :: rest) h2]

/-- For a replacement text without a dollar sign the scan replaces every match
by the replacement text as it stands. -/
theorem replaceScan_eq_plainScan (pat repl : List Char) (h : '$' ∉ repl) :
    ∀ (text : List Char) (skip : Nat) (before : List Char),
      replaceScan pat repl skip before text = plainScan pat repl skip text
  | [], skip, before => by cases skip <;> simp [replaceScan, plainScan]
  | c :: cs, 0, before => by
    simp only [replaceScan, plainScan]
    rw [replaceScan_eq_plainScan pat repl h cs, replaceScan_eq_plainScan pat repl h cs,
      getSubstitution_plain _ _ _ repl h]
  | c :: cs, skip + 1, before => by
    simp only [replaceScan, plainScan]
    exact replaceScan_eq_plainScan pat repl h cs skip _

theorem plainScan_skip (pat repl : List Char) :
    ∀ (skipped rest : List Char),
      plainScan pat repl skipped.length (skipped ++ rest) = plainScan pat repl 0 rest
  | [], rest => rfl
  | c :: cs, rest => by
    simp only [List.length_cons, List.cons_append, plainScan]
    exact plainScan_skip pat repl cs rest

theorem startsWithChars_iff (pat text : List Char) :
    startsWithChars pat text = true ↔ pat <+: text := by
  induction pat generalizing text with
  | nil => simp [startsWithChars]
  | cons p ps ih =>
    cases text with
    | nil => simp [startsWithChars]
    | cons c cs => simp [startsWithChars, ih, List.cons_prefix_cons]

theorem startsWithChars_self_append (pat rest : List Char) :
    startsWithChars pat (pat ++ rest) = true :=
  (startsWithChars_iff _ _).mpr (List.prefix_append _ _)

theorem plainScan_zero_cons (pat repl : List Char) (c : Char) (cs : List Char) :
    plainScan pat repl 0 (c :: cs) =
      if startsWithChars pat (c :: cs) then repl ++ plainScan pat repl (pat.length - 1) cs
      else c :: plainScan pat repl 0 cs := rfl

theorem plainScan_match (pat repl rest : List Char) (hp : pat ≠ []) :
    plainScan pat repl 0 (pat ++ rest) = repl ++ plainScan pat repl 0 rest := by
  cases pat with
  | nil => exact absurd rfl hp
  | cons c cs =>
    have hs := startsWithChars_self_append (c :: cs) rest
    rw [List.cons_append] at hs ⊢
    rw [plainScan_zero_cons, hs, if_pos rfl, List.length_cons, Nat.add_sub_cancel,
      plainScan_skip]

theorem plainScan_no_match (pat repl : List Char) :
    ∀ (piece tail : List Char),
      (∀ j, j < piece.length → ¬ pat <+: (piece.drop j ++ tail)) →
      plainScan pat repl 0 (piece ++ tail) = piece ++ plainScan pat repl 0 tail
  | [], tail, _ => rfl
  | c :: cs, tail, h => by
    have h0 : ¬ startsWithChars pat (c :: (cs ++ tail)) = true := by
      rw [startsWithChars_iff]
      exact h 0 (by simp)
    rw [List.cons_append, plainScan_zero_cons, if_neg h0, List.cons_append,
      plainScan_no_match pat repl cs tail]
    intro j hj
    exact h (j + 1) (by simpa using hj)

/-- The placeholder does not overlap itself: its first letter occurs in it
only once. -/
theorem placeholder_no_overlap (q t : List Char) (hq : q ≠ [])
    (h : placeholder = q ++ 'C' :: t) : False := by
  have hlen := congrArg List.length h
  simp [placeholder] at hlen
  have hk : placeholder[q.length]? = some 'C' := by
    rw [h, List.getElem?_append_right (le_refl _)]
    simp
  have hpos : 0 < q.length := List.length_pos.mpr hq
  generalize q.length = k at hk hlen hpos
  have hk15 : k < 15 := by omega
  interval_cases k <;> simp [placeholder] at hk

/-- In a text that goes on with the placeholder, no occurrence of the
placeholder begins inside a piece that does not contain it. -/
theorem no_match_in_piece (piece rest : List Char) (hfree : ¬ placeholder <:+: piece)
    (tail : List Char) (htail : tail = [] ∨ tail = placeholder ++ rest) (j : Nat)
    (hj : j < piece.length) : ¬ placeholder <+: (piece.drop j ++ tail) := by
  intro hpre
  have hq : piece.drop j ≠ [] := by
    intro h0
    have := congrArg List.length h0
    simp at this
    omega
  by_cases hle : placeholder.length ≤ (piece.drop j).length
  · have h1 : placeholder <+: piece.drop j :=
      List.prefix_of_prefix_length_le hpre (List.prefix_append _ _) hle
    exact hfree (h1.isInfix.trans (List.drop_suffix j piece).isInfix)
  · have h1 : piece.drop j <+: placeholder :=
      List.prefix_of_prefix_length_le (List.prefix_append _ _) hpre (by omega)
    obtain ⟨t, ht⟩ := h1
    rw [← ht, List.prefix_append_right_inj] at hpre
    have htne : t ≠ [] := by
      intro h0
      rw [h0, List.append_nil] at ht
      rw [ht] at hle
      exact hle (le_refl _)
    rcases htail with h2 | h2
    · rw [h2] at hpre
      exact htne (List.prefix_nil.mp hpre)
    · rw [h2] at hpre
      cases t with
      | nil => exact htne rfl
      | cons c t1 =>
        have hc : c = 'C' := by
          have h3 : c :: t1 <+: 'C' :: ("odePushDemoApp".data ++ rest) := hpre
          exact (List.cons_prefix_cons.mp h3).1
        rw [hc] at ht
        exact placeholder_no_overlap _ _ hq ht.symm

theorem intercalate_cons_cons (sep p q : List Char) (ps : List (List Char)) :
    List.intercalate sep (p :: q :: ps) = p ++ sep ++ List.intercalate sep (q :: ps) := by
  simp [List.intercalate, List.intersperse]

theorem intercalate_singleton (sep p : List Char) : List.intercalate sep [p] = p := by
  simp [List.intercalate, List.intersperse]

/-- The plain scan of a text cut at the occurrences of the placeholder joins
the pieces with the replacement text. -/
theorem plainScan_intercalate (repl : List Char) :
    ∀ pieces : List (List Char), pieces ≠ [] → (∀ p ∈ pieces, ¬ placeholder <:+: p) →
      plainScan placeholder repl 0 (List.intercalate placeholder pieces) =
        List.intercalate repl pieces
  | [], h, _ => absurd rfl h
  | [p], _, hfree => by
    rw [intercalate_singleton, intercalate_singleton]
    have h := plainScan_no_match placeholder repl p [] (fun j hj =>
      no_match_in_piece p [] (hfree p (by simp)) [] (Or.inl rfl) j hj)
    simpa [plainScan] using h
  | p :: q :: ps, _, hfree => by
    rw [intercalate_cons_cons, intercalate_cons_cons, List.append_assoc,
      plainScan_no_match placeholder repl p _ (fun j hj =>
        no_match_in_piece p (List.intercalate placeholder (q :: ps)) (hfree p (by simp)) _
          (Or.inr rfl) j hj),
      plainScan_match _ _ _ (by simp [placeholder]),
      plainScan_intercalate repl (q :: ps) (by simp)
        (fun x hx => hfree x (List.mem_cons_of_mem _ hx)),
      List.append_assoc]

theorem intercalate_append (sep : List Char) :
    ∀ (xs ys : List (List Char)), xs ≠ [] → ys ≠ [] →
      List.intercalate sep (xs ++ ys) =
        List.intercalate sep xs ++ sep ++ List.intercalate sep ys
  | [], _, h, _ => absurd rfl h
  | [x], y :: ys, _, _ => by
    rw [List.singleton_append, intercalate_cons_cons, intercalate_singleton]
  | [_], [], _, h => absurd rfl h
  | x :: x2 :: xs, ys, _, hy => by
    rw [List.cons_append, List.cons_append, intercalate_cons_cons, ← List.cons_append,
      intercalate_append sep (x2 :: xs) ys (by simp) hy, intercalate_cons_cons]
    simp [List.append_assoc]

theorem exists_pieces_of_length (n : Nat) :
    ∀ text : List Char, text.length ≤ n →
      ∃ pieces : List (List Char), pieces ≠ [] ∧
        text = List.intercalate placeholder pieces ∧ ∀ p ∈ pieces, ¬ placeholder <:+: p := by
  induction n with
  | zero =>
    intro text hlen
    refine ⟨[text], by simp, (intercalate_singleton _ _).symm, ?_⟩
    intro p hp
    simp only [List.mem_singleton] at hp
    subst hp
    rintro ⟨a, b, hab⟩
    have h2 := congrArg List.length hab
    simp [placeholder] at h2
    omega
  | succ n ih =>
    intro text hlen
    by_cases hin : placeholder <:+: text
    · obtain ⟨a, b, hab⟩ := hin
      have h2 := congrArg List.length hab
      simp [placeholder] at h2
      obtain ⟨as, has, hat, hafree⟩ := ih a (by omega)
      obtain ⟨bs, hbs, hbt, hbfree⟩ := ih b (by omega)
      refine ⟨as ++ bs, by simp [has], ?_, ?_⟩
      · rw [intercalate_append _ _ _ has hbs, ← hat, ← hbt, hab]
      · intro p hp
        rcases List.mem_append.mp hp with h | h
        · exact hafree p h
        · exact hbfree p h
    · exact ⟨[text], by simp, (intercalate_singleton _ _).symm, by simpa using hin⟩

/-- Every text can be cut at occurrences of the placeholder into pieces that do
not contain it. -/
theorem exists_pieces (text : List Char) :
    ∃ pieces : List (List Char), pieces ≠ [] ∧
      text = List.intercalate placeholder pieces ∧ ∀ p ∈ pieces, ¬ placeholder <:+: p :=
  exists_pieces_of_length text.length text (le_refl _)

/-- For an app name without a dollar sign the substitution of line 124 does
what the specification says: cut the text at the occurrences of the placeholder
(every text can be cut so, and the pieces hold no occurrence), and the result is
the pieces joined by the app name. -/
theorem substitution_plain_name (appName data : String) (h : '$' ∉ appName.data) :
    (∃ pieces : List (List Char), pieces ≠ [] ∧
      data.data = List.intercalate placeholder pieces ∧
      ∀ p ∈ pieces, ¬ placeholder <:+: p) ∧
    (∀ pieces : List (List Char), pieces ≠ [] →
      data.data = List.intercalate placeholder pieces →
      (∀ p ∈ pieces, ¬ placeholder <:+: p) →
      (jsReplaceAll "CodePushDemoApp" appName data).data =
        List.intercalate appName.data pieces) := by
  refine ⟨exists_pieces data.data, ?_⟩
  intro pieces hne hdata hfree
  simp only [jsReplaceAll]
  rw [replaceScan_eq_plainScan _ _ h, hdata]
  exact plainScan_intercalate appName.data pieces hne hfree

/-- C4 fails on the code for an app name with a special replacement pattern: in
the world `envHappy`, for the app name `My$$App`, the text of `demo.js` is the
three pieces `import `, ` from '` and `';` joined by the placeholder, and the
text written back is these pieces joined by `My$App`, not by `My$$App`. -/
theorem dollar_name_substitution :
    "import CodePushDemoApp from 'CodePushDemoApp';".data =
      List.intercalate placeholder ["import ".data, " from '".data, "';".data] ∧
    (setupAssets envHappy "My$$App" "react-native@0.45.0" 2 State.init).state.trace[15]? =
      some (.readFile "demo.js" (some "import CodePushDemoApp from 'CodePushDemoApp';")) ∧
    (setupAssets envHappy "My$$App" "react-native@0.45.0" 2 State.init).state.trace[16]? =
      some (.writeFile "demo.js" "import My$App from 'My$App';" true) ∧
    "import My$App from 'My$App';".data =
      List.intercalate "My$App".data ["import ".data, " from '".data, "';".data] ∧
    "import My$App from 'My$App';".data ≠
      List.intercalate "My$$App".data ["import ".data, " from '".data, "';".data] := by
  refine ⟨by decide, by rfl, by rfl, by decide, by decide⟩

end CreateApp
